import Mathlib

/-!
Verification development for the irodsfs FUSE filesystem core.

The definitions below are a shallow embedding of the Go sources:
  * `src/irodsfs/filehandle.go` (FileHandle.Read / Write / Truncate / Flush /
    Fsync / Release / GetLocalLock / SetLocalLock / SetLocalLockW / Getattr / Setattr)
  * `src/irodsfs/file.go` (File.Open / Truncate / Getattr / Setattr / xattr ops)
  * `src/commons/config.go` (ParsePoolServiceEndpoint, on top of a model of Go's
    net/url.Parse and path.Join)

External collaborators (the iRODS backend client, the reader/writer pipelines of
the irodsfs-common library, the lock-manager file that is not part of src) are
modelled either by oracle parameters (the result a backend call would produce)
or, where the specification is the only source, by definitions whose doc comment
starts with "Modelled from the spec".
-/

set_option maxRecDepth 4000

namespace IrodsFS

/-- POSIX errnos returned by the filesystem operations, as used in the Go
sources (`syscall.E...`, with `OK` standing for `fusefs.OK`). -/
inductive Errno where
  | OK | ENOENT | EACCES | EROFS | EBADFD | EINVAL | EAGAIN | ENOLCK
  | ETIMEDOUT | EIO | ENOTSUP | ECONNABORTED | EREMOTEIO | EPERM | ERANGE | ENODATA
deriving DecidableEq, Repr

/-- File open modes of the iRODS client (`FileOpenMode` strings "r", "r+", "w",
"w+", "a", "a+" in the `irodsapi` source file). -/
inductive FileOpenMode where
  | readOnly | readWrite | writeOnly | writeTruncate | append | readAppend
deriving DecidableEq, Repr

/-- Models `FileOpenMode.IsRead` of the go-irodsclient library (used by the
backend handle's `IsReadMode`): true for "r", "r+", "a+". -/
def FileOpenMode.isRead : FileOpenMode → Bool
  | .readOnly | .readWrite | .readAppend => true
  | _ => false

/-- Models `FileOpenMode.IsWrite` of the go-irodsclient library (used by the
backend handle's `IsWriteMode`): true for "r+", "w", "w+", "a", "a+". -/
def FileOpenMode.isWrite : FileOpenMode → Bool
  | .readWrite | .writeOnly | .writeTruncate | .append | .readAppend => true
  | _ => false

/-- Models `FileOpenMode.IsReadOnly`: true exactly for "r". -/
def FileOpenMode.isReadOnly : FileOpenMode → Bool
  | .readOnly => true
  | _ => false

/-- Linux value of `os.O_WRONLY` as used by the Go `os` package. -/
def O_WRONLY : Nat := 1
/-- Linux value of `os.O_RDWR`. -/
def O_RDWR : Nat := 2
/-- Linux value of `os.O_TRUNC` (0o1000). -/
def O_TRUNC : Nat := 512
/-- Linux value of `os.O_APPEND` (0o2000). -/
def O_APPEND : Nat := 1024

/-- Flag-to-open-mode translation performed at the start of `File.Open`
(`src/irodsfs/file.go`, lines 576-597): start from write-only when `O_WRONLY`
is set, refining to append or write-truncate; otherwise read-write when
`O_RDWR` is set; otherwise read-only. -/
def openModeOfFlags (flags : Nat) : FileOpenMode :=
  if flags &&& O_WRONLY = O_WRONLY then
    if flags &&& O_APPEND = O_APPEND then .append
    else if flags &&& O_TRUNC = O_TRUNC then .writeTruncate
    else .writeOnly
  else if flags &&& O_RDWR = O_RDWR then .readWrite
  else .readOnly

/-- Translation written from the spec's words, first match wins:
"`O_WRONLY|O_APPEND` → Append; `O_WRONLY|O_TRUNC` → WriteTruncate;
`O_WRONLY` → WriteOnly; `O_RDWR` → ReadWrite; else ReadOnly". Kept separate
from `openModeOfFlags` so the two can be compared. -/
def specOpenModeOfFlags (flags : Nat) : FileOpenMode :=
  if flags &&& O_WRONLY = O_WRONLY ∧ flags &&& O_APPEND = O_APPEND then .append
  else if flags &&& O_WRONLY = O_WRONLY ∧ flags &&& O_TRUNC = O_TRUNC then .writeTruncate
  else if flags &&& O_WRONLY = O_WRONLY then .writeOnly
  else if flags &&& O_RDWR = O_RDWR then .readWrite
  else .readOnly

/-- Go conversion `uint32(n)` applied to a non-negative write length. -/
def uint32OfNat (n : Nat) : Nat := n % 2 ^ 32

/-- Go conversion `int64(size)` applied to a `uint64` value. -/
def int64OfUint64 (n : Nat) : Int :=
  if n % 2 ^ 64 < 2 ^ 63 then ((n % 2 ^ 64 : Nat) : Int)
  else ((n % 2 ^ 64 : Nat) : Int) - 2 ^ 64

/-- Result of the writer pipeline's `WriteAt`: `.ok n` is a successful write of
`n` bytes, `.error ()` any error (the pipeline lives in the external
irodsfs-common library; only its result matters here). -/
abbrev WriterResult := Except Unit Nat

/-- Shallow embedding of `FileHandle.Write` (`src/irodsfs/filehandle.go`,
lines 190-238). `hasBackend` is `handle.fileHandle != nil`, `hasWriter` is
`handle.writer != nil`; `dataLen` is `len(data)`; the pipeline call
`writer.WriteAt` is an oracle parameter. Returns `(written, errno)`. -/
def fileHandleWrite (terminated hasBackend : Bool) (mode : FileOpenMode)
    (hasWriter : Bool) (dataLen : Nat) (offset : Int)
    (writerResult : WriterResult) : Nat × Errno :=
  if terminated then (0, .ECONNABORTED)
  else if !hasBackend then (0, .EBADFD)
  else if !mode.isWrite then (0, .EBADFD)
  else if !hasWriter then (0, .EBADFD)
  else if dataLen = 0 then (0, .OK)
  else if offset < 0 then (0, .EBADFD)
  else
    match writerResult with
    | .error _ => (0, Errno.EREMOTEIO)
    | .ok n => (uint32OfNat n, .OK)

/-- Error carried by the reader pipeline's `ReadAt`: `io.EOF` or any other
error. -/
inductive ReadErr where
  | eof | fail
deriving DecidableEq, Repr

/-- Result shape of `reader.ReadAt(dest, offset)`: bytes read plus an optional
error (`none` = nil error). -/
abbrev ReaderResult := Nat × Option ReadErr

/-- Shallow embedding of `FileHandle.Read` (`src/irodsfs/filehandle.go`,
lines 141-187). `size` is `handle.fileHandle.GetEntry().Size`; the reader
pipeline (external irodsfs-common library) is passed as the function
`readerReadAt destLen offset`. `.ok n` stands for
`fuse.ReadResultData(dest[:n]), fusefs.OK`. -/
def fileHandleRead (terminated hasBackend : Bool) (mode : FileOpenMode)
    (hasReader : Bool) (size : Int) (destLen : Nat) (offset : Int)
    (readerReadAt : Nat → Int → ReaderResult) : Except Errno Nat :=
  if terminated then .error .ECONNABORTED
  else if !hasBackend then .error .EBADFD
  else if !mode.isRead then .error .EBADFD
  else if !hasReader then .error .EBADFD
  else if offset > size then .ok 0
  else
    match readerReadAt destLen offset with
    | (_, some .fail) => .error Errno.EREMOTEIO
    | (n, some .eof) => .ok n
    | (n, none) => .ok n

/-- Modelled from the spec: the reader pipeline (spec section 4.2, components
SyncReader / AsyncCacheThroughReader) lives in the external irodsfs-common
library and is not part of src. Its `read_at` contract says "If `off >= size`,
return 0 bytes, no error" and "returns up to `len(dest)` bytes"; reads that
reach the end of the file report `io.EOF` Go-style. -/
def specReaderReadAt (size : Int) (destLen : Nat) (off : Int) : ReaderResult :=
  if off ≥ size then (0, some .eof)
  else
    let avail := (size - off).toNat
    if destLen < avail then (destLen, none) else (avail, some .eof)

/-- State of one registered file handle, as needed by the registry-driven
operations: `hid` is `fileHandle.GetID()`, `path` the iRODS path of the entry,
`mode` the open mode, `hasBackend` whether `handle.fileHandle != nil`. -/
structure HandleInfo where
  hid : Nat
  path : String
  mode : FileOpenMode
  hasBackend : Bool
deriving DecidableEq, Repr

/-- Backend truncate calls observed during a filesystem `Truncate`:
`viaHandle hid` is `handle.fileHandle.Truncate` through the open handle `hid`,
`direct` is `fsClient.TruncateFile`. -/
inductive TruncEvent where
  | viaHandle (hid : Nat)
  | direct
deriving DecidableEq, Repr

/-- Outcome of a backend call that can fail with a file-not-found error or any
other error. -/
inductive BackendErr where
  | notFound | other
deriving DecidableEq, Repr

/-- Kind of a virtual-path entry: a synthetic directory or an iRODS-backed
entry. -/
inductive VPathKind where
  | virtualDir | irods
deriving DecidableEq, Repr

/-- The fields of a VPath entry used by the embedded operations (the full
VPath manager is in the external irodsfs-common library). -/
structure VPathEntry where
  kind : VPathKind
  readOnly : Bool
deriving DecidableEq, Repr

/-- The fields of the iRODS entry returned by `StatIRODSEntry` that the
embedded operations consume: `epath` is `irodsEntry.Path` and `esize` is
`irodsEntry.Size` (an int64). -/
structure IRODSEntry where
  epath : String
  esize : Int
deriving DecidableEq, Repr

/-- Shallow embedding of `FileHandle.Truncate` (`src/irodsfs/filehandle.go`,
lines 241-274). `backendOk` is the oracle for `handle.fileHandle.Truncate`.
Returns the errno together with the backend truncate calls made. -/
def fileHandleTruncate (terminated : Bool) (h : HandleInfo) (backendOk : Bool) :
    Errno × List TruncEvent :=
  if terminated then (.ECONNABORTED, [])
  else if !h.hasBackend then (.EBADFD, [])
  else if !h.mode.isWrite then (.EBADFD, [])
  else if backendOk then (.OK, [.viaHandle h.hid])
  else ( Errno.EREMOTEIO, [.viaHandle h.hid])

/-- The for-loop of `File.Truncate` over `fileHandleMap.ListByPath` results
(`src/irodsfs/file.go`, lines 524-542): the first write-mode handle is asked to
truncate and the loop breaks; other handles are skipped. Result:
(errno, callFtruncate, backend events). -/
def truncateLoop (terminated : Bool) (handleBackendOk : Nat → Bool) :
    List HandleInfo → Errno × Bool × List TruncEvent
  | [] => (.OK, false, [])
  | h :: rest =>
    if h.mode.isWrite then
      let r := fileHandleTruncate terminated h (handleBackendOk h.hid)
      if r.1 ≠ Errno.OK then (r.1, false, r.2)
      else (.OK, true, r.2)
    else truncateLoop terminated handleBackendOk rest

/-- Shallow embedding of `File.Truncate` (`src/irodsfs/file.go`, lines
472-560). The VPath lookup, `ensureVPathEntryIsIRODSEntry`, `StatIRODSEntry`,
each handle's backend truncate and the direct `fsClient.TruncateFile` are
oracle parameters; `registry` is the file-handle map contents and `size` the
requested uint64 size. In the loop the write-mode test is
`handle.fileHandle.IsWriteMode()` (registered handles have a backend handle).
Returns the errno and the backend truncate calls made. -/
def fileTruncate (terminated : Bool) (vpathEntry : Option VPathEntry)
    (ensureOk : Bool) (statResult : Except BackendErr IRODSEntry)
    (registry : List HandleInfo) (handleBackendOk : Nat → Bool)
    (directResult : Except BackendErr Unit) (size : Nat) :
    Errno × List TruncEvent :=
  if terminated then (.ECONNABORTED, [])
  else
    match vpathEntry with
    | none => ( Errno.EREMOTEIO, [])
    | some vp =>
      if vp.kind = VPathKind.virtualDir then ( Errno.EREMOTEIO, [])
      else if !ensureOk then ( Errno.EREMOTEIO, [])
      else
        match statResult with
        | .error .notFound => (.ENOENT, [])
        | .error .other => ( Errno.EREMOTEIO, [])
        | .ok entry =>
          let opened := registry.filter (fun h => h.path = entry.epath)
          let lr := truncateLoop terminated handleBackendOk opened
          if lr.1 ≠ Errno.OK then (lr.1, lr.2.2)
          else if lr.2.1 then (.OK, lr.2.2)
          else if entry.esize ≠ int64OfUint64 size then
            match directResult with
            | .error .notFound => (.ENOENT, lr.2.2 ++ [.direct])
            | .error .other => ( Errno.EREMOTEIO, lr.2.2 ++ [.direct])
            | .ok _ => (.OK, lr.2.2 ++ [.direct])
          else (.OK, lr.2.2)

/-- Shallow embedding of `File.Open` (`src/irodsfs/file.go`, lines 563-663).
`irodsPathOk` is the oracle for `vpathEntry.GetIRODSPath`, `backendOpen` for
`fsClient.OpenFile`, `newHandleOk` for `NewFileHandle` (pipeline setup). On
success the new handle (fresh id `newHid`, the file's path, the translated
mode) is appended to the registry. -/
def fileOpen (terminated : Bool) (flags : Nat) (vpathEntry : Option VPathEntry)
    (ensureOk irodsPathOk : Bool) (backendOpen : Except BackendErr Unit)
    (newHandleOk : Bool) (registry : List HandleInfo) (newHid : Nat)
    (path : String) : Except Errno (List HandleInfo × FileOpenMode) :=
  if terminated then .error .ECONNABORTED
  else
    let mode := openModeOfFlags flags
    match vpathEntry with
    | none => .error Errno.EREMOTEIO
    | some vp =>
      if vp.kind = VPathKind.virtualDir then .error .EPERM
      else if vp.readOnly ∧ mode ≠ FileOpenMode.readOnly then .error Errno.EREMOTEIO
      else if !ensureOk then .error Errno.EREMOTEIO
      else if !irodsPathOk then .error Errno.EREMOTEIO
      else
        match backendOpen with
        | .error .notFound => .error .ENOENT
        | .error .other => .error Errno.EREMOTEIO
        | .ok _ =>
          if !newHandleOk then .error Errno.EREMOTEIO
          else .ok (registry ++ [⟨newHid, path, mode, true⟩], mode)

/-- Steps taken while a handle is released, in order of occurrence:
release of the reader pipeline, release (flush) of the writer pipeline, removal
from the file-handle map, the telemetry report, and the backend `Close`. -/
inductive RelEvent where
  | readerReleased
  | writerReleased
  | removedFromMap (hid : Nat)
  | reportedDone (hid : Nat)
  | backendClosed (hid : Nat)
deriving DecidableEq, Repr

/-- The `closeFunc` closure of `FileHandle.Release`
(`src/irodsfs/filehandle.go`, lines 389-410): remove the handle from the
file-handle map, report the file access as done, then close the backend
handle. The registry is modelled by the list of registered handle ids. -/
def closeFunc (hid : Nat) (hasReportClient : Bool) (registry : List Nat) :
    List Nat × List RelEvent :=
  (registry.filter (fun x => x ≠ hid),
   RelEvent.removedFromMap hid ::
     (if hasReportClient then [RelEvent.reportedDone hid] else []) ++
     [RelEvent.backendClosed hid])

/-- Result of `FileHandle.Release`: the errno, the registry as it is when the
call returns, the events that happened before returning, and whether
`closeFunc` was deferred to a goroutine (read-only handles). -/
structure ReleaseResult where
  errno : Errno
  registry : List Nat
  events : List RelEvent
  deferredClose : Bool
deriving DecidableEq, Repr

/-- Shallow embedding of `FileHandle.Release` (`src/irodsfs/filehandle.go`,
lines 345-421). `readerErr` / `writerErr` are the sticky errors returned by
`reader.GetError()` / `writer.GetError()` after the pipeline release. For a
read-only handle `closeFunc` runs in a goroutine (`go closeFunc()`), so at
return time the registry is untouched and `deferredClose` is set. -/
def fileHandleRelease (terminated hasBackend : Bool) (hid : Nat)
    (mode : FileOpenMode) (hasReader readerErr hasWriter writerErr : Bool)
    (hasReportClient : Bool) (registry : List Nat) : ReleaseResult :=
  if terminated then ⟨.ECONNABORTED, registry, [], false⟩
  else if !hasBackend then ⟨ Errno.EREMOTEIO, registry, [], false⟩
  else
    let readerEvents := if hasReader then [RelEvent.readerReleased] else []
    if hasReader && readerErr then ⟨ Errno.EREMOTEIO, registry, readerEvents, false⟩
    else
      let writerEvents := if hasWriter then [RelEvent.writerReleased] else []
      if hasWriter && writerErr then
        ⟨ Errno.EREMOTEIO, registry, readerEvents ++ writerEvents, false⟩
      else if mode.isReadOnly then
        ⟨.OK, registry, readerEvents ++ writerEvents, true⟩
      else
        let c := closeFunc hid hasReportClient registry
        ⟨.OK, c.1, readerEvents ++ writerEvents ++ c.2, false⟩

/-- Registry once a deferred `closeFunc` (read-only handles) has also run; for
synchronous closes this is the registry returned by `Release` itself. -/
def releaseFinalRegistry (r : ReleaseResult) (hid : Nat)
    (hasReportClient : Bool) : List Nat :=
  if r.deferredClose then (closeFunc hid hasReportClient r.registry).1
  else r.registry

/-- Event sequence of a release including the deferred `closeFunc` events when
the close was detached to a goroutine. -/
def releaseFullEvents (r : ReleaseResult) (hid : Nat)
    (hasReportClient : Bool) : List RelEvent :=
  if r.deferredClose then r.events ++ (closeFunc hid hasReportClient r.registry).2
  else r.events

/-- Linux `F_RDLCK` (read lock) as seen in `fuse.FileLock.Typ`. -/
def F_RDLCK : Nat := 0
/-- Linux `F_WRLCK` (write lock). -/
def F_WRLCK : Nat := 1
/-- Linux `F_UNLCK` (unlock request). -/
def F_UNLCK : Nat := 2

/-- A local byte-range lock record (`FileHandleLocalLock` in
`src/irodsfs/filehandle.go`): `lockType` is the Go `LockType` (`lk.Typ`),
`lstart`/`lend` the Go `Start`/`End` uint64 bounds. The random `ID` string is
irrelevant to the embedded behaviour and omitted. -/
structure FileHandleLocalLock where
  lockType : Nat
  pid : Nat
  lstart : Nat
  lend : Nat
deriving DecidableEq, Repr

/-- Intersection of the closed ranges `[a.lstart, a.lend]` and
`[b.lstart, b.lend]`, the conflict test of the local lock manager. -/
def lockIntersects (a b : FileHandleLocalLock) : Bool :=
  a.lstart ≤ b.lend && b.lstart ≤ a.lend

/-- Modelled from the spec: `FileHandleLocalLockManager.Unlock` (the lock
manager's source file is not under src). Spec section 4.5: "Type `Unlock`:
remove any record whose `[start,end]` intersects the given range; fails ...
if no record intersects." -/
def lockManagerUnlock (table : List FileHandleLocalLock)
    (l : FileHandleLocalLock) : Except Unit (List FileHandleLocalLock) :=
  if table.any (fun r => lockIntersects r l) then
    .ok (table.filter (fun r => !lockIntersects r l))
  else .error ()

/-- Modelled from the spec: `FileHandleLocalLockManager.Lock`. Spec section
4.5: "Type `Read|Write`: scan the table; fails ... if any existing record
intersects and the requested/existing pair is not both Read. Otherwise,
insert." -/
def lockManagerLock (table : List FileHandleLocalLock)
    (l : FileHandleLocalLock) : Except Unit (List FileHandleLocalLock) :=
  if table.any (fun r =>
      lockIntersects r l && !(r.lockType = F_RDLCK && l.lockType = F_RDLCK)) then
    .error ()
  else .ok (table ++ [l])

/-- Modelled from the spec: `FileHandleLocalLockManager.Get`. Spec section
4.5: "return the first intersecting record, else synthesise an `Unlock`
reply". -/
def lockManagerGet (table : List FileHandleLocalLock) (qstart qend : Nat) :
    Option FileHandleLocalLock :=
  table.find? (fun r => r.lstart ≤ qend && qstart ≤ r.lend)

/-- Shallow embedding of `FileHandle.SetLocalLock`
(`src/irodsfs/filehandle.go`, lines 529-572): an `F_UNLCK` request goes to the
manager's `Unlock` (failure → `ENOENT`); other types go to `Lock` (failure →
`EAGAIN`). Returns the errno and the lock table after the call. -/
def fileHandleSetLocalLock (terminated : Bool)
    (table : List FileHandleLocalLock) (l : FileHandleLocalLock) :
    Errno × List FileHandleLocalLock :=
  if terminated then (.ECONNABORTED, table)
  else if l.lockType = F_UNLCK then
    match lockManagerUnlock table l with
    | .error _ => (.ENOENT, table)
    | .ok t => (.OK, t)
  else
    match lockManagerLock table l with
    | .error _ => (.EAGAIN, table)
    | .ok t => (.OK, t)

/-- Shallow embedding of `FileHandle.GetLocalLock`
(`src/irodsfs/filehandle.go`, lines 486-526): report the first intersecting
record, else echo the request with type `F_UNLCK`. -/
def fileHandleGetLocalLock (terminated : Bool)
    (table : List FileHandleLocalLock) (lk : FileHandleLocalLock) :
    Except Errno FileHandleLocalLock :=
  if terminated then .error .ECONNABORTED
  else
    match lockManagerGet table lk.lstart lk.lend with
    | some r => .ok r
    | none => .ok { lk with lockType := F_UNLCK }

/-- Shallow embedding of `FileHandle.SetLocalLockW`
(`src/irodsfs/filehandle.go`, lines 575-594): blocking waits are not
supported. -/
def fileHandleSetLocalLockW (terminated : Bool) : Errno :=
  if terminated then .ECONNABORTED else .ENOTSUP

/-- Shallow embedding of `FileHandle.Flush` (`src/irodsfs/filehandle.go`,
lines 277-308): `flushErr` is the oracle for `writer.Flush()`. -/
def fileHandleFlush (terminated hasBackend hasWriter flushErr : Bool) : Errno :=
  if terminated then .ECONNABORTED
  else if !hasBackend then Errno.EREMOTEIO
  else if hasWriter && flushErr then Errno.EREMOTEIO
  else .OK

/-- Shallow embedding of `FileHandle.Fsync` (`src/irodsfs/filehandle.go`,
lines 311-342), which flushes exactly like `Flush`. -/
def fileHandleFsync (terminated hasBackend hasWriter flushErr : Bool) : Errno :=
  if terminated then .ECONNABORTED
  else if !hasBackend then Errno.EREMOTEIO
  else if hasWriter && flushErr then Errno.EREMOTEIO
  else .OK

/-- Shallow embedding of `File.Getattr` (`src/irodsfs/file.go`, lines
53-105): resolve the VPath entry, require an iRODS entry, stat it and project
the attributes (the attribute projection itself carries no errno logic, so the
stat entry is returned). -/
def fileGetattr (terminated : Bool) (vpathEntry : Option VPathEntry)
    (ensureOk : Bool) (statResult : Except BackendErr IRODSEntry) :
    Except Errno IRODSEntry :=
  if terminated then .error .ECONNABORTED
  else
    match vpathEntry with
    | none => .error Errno.EREMOTEIO
    | some vp =>
      if vp.kind = VPathKind.virtualDir then .error Errno.EREMOTEIO
      else if !ensureOk then .error Errno.EREMOTEIO
      else
        match statResult with
        | .error .notFound => .error .ENOENT
        | .error .other => .error Errno.EREMOTEIO
        | .ok e => .ok e

/-- Shallow embedding of `FileHandle.Getattr` (`src/irodsfs/filehandle.go`,
lines 88-106), which forwards to `File.Getattr`. -/
def fileHandleGetattr (terminated : Bool) (vpathEntry : Option VPathEntry)
    (ensureOk : Bool) (statResult : Except BackendErr IRODSEntry) :
    Except Errno IRODSEntry :=
  if terminated then .error .ECONNABORTED
  else fileGetattr terminated vpathEntry ensureOk statResult

/-- Shallow embedding of `File.Setattr` (`src/irodsfs/file.go`, lines
108-165): a size change becomes a `File.Truncate`; everything else is
acknowledged silently. -/
def fileSetattr (terminated : Bool) (sizeReq : Option Nat)
    (vpathEntry : Option VPathEntry) (ensureOk : Bool)
    (statResult : Except BackendErr IRODSEntry) (registry : List HandleInfo)
    (handleBackendOk : Nat → Bool) (directResult : Except BackendErr Unit) :
    Errno × List TruncEvent :=
  if terminated then (.ECONNABORTED, [])
  else
    match sizeReq with
    | some size =>
      fileTruncate terminated vpathEntry ensureOk statResult registry
        handleBackendOk directResult size
    | none => (.OK, [])

/-- Shallow embedding of `FileHandle.Setattr` (`src/irodsfs/filehandle.go`,
lines 109-138): a size change becomes `FileHandle.Truncate` on this handle;
everything else is forwarded to `File.Setattr`. -/
def fileHandleSetattr (terminated : Bool) (sizeReq : Option Nat)
    (h : HandleInfo) (backendOk : Bool) (vpathEntry : Option VPathEntry)
    (ensureOk : Bool) (statResult : Except BackendErr IRODSEntry)
    (registry : List HandleInfo) (handleBackendOk : Nat → Bool)
    (directResult : Except BackendErr Unit) : Errno × List TruncEvent :=
  if terminated then (.ECONNABORTED, [])
  else
    match sizeReq with
    | some _ => fileHandleTruncate terminated h backendOk
    | none =>
      fileSetattr terminated none vpathEntry ensureOk statResult registry
        handleBackendOk directResult

/-- Shallow embedding of `File.Listxattr` (`src/irodsfs/file.go`, lines
172-248): names of the iRODS metadata are packed null-terminated; a short
destination buffer yields `ERANGE` with the required size. -/
def fileListxattr (terminated : Bool) (vpathEntry : Option VPathEntry)
    (ensureOk irodsPathOk : Bool)
    (listResult : Except BackendErr (List (List Char))) (destLen : Nat) :
    Nat × Errno :=
  if terminated then (0, .ECONNABORTED)
  else
    match vpathEntry with
    | none => (0, Errno.EREMOTEIO)
    | some vp =>
      if vp.kind = VPathKind.virtualDir then (0, Errno.EREMOTEIO)
      else if !ensureOk then (0, Errno.EREMOTEIO)
      else if !irodsPathOk then (0, Errno.EREMOTEIO)
      else
        match listResult with
        | .error .notFound => (0, .ENOENT)
        | .error .other => (0, Errno.EREMOTEIO)
        | .ok names =>
          let required := (names.map (fun n => n.length + 1)).sum
          if destLen < required then (required, .ERANGE)
          else if required > 0 then (required, .OK)
          else (0, .OK)

/-- Shallow embedding of `File.Getxattr` (`src/irodsfs/file.go`, lines
254-326): unhandled attributes answer `ENODATA` up front; a missing metadata
entry answers `ENODATA`; a short buffer answers `ERANGE` with the required
size. -/
def fileGetxattr (terminated unhandledAttr : Bool)
    (vpathEntry : Option VPathEntry) (ensureOk irodsPathOk : Bool)
    (getResult : Except BackendErr (Option (List Char))) (destLen : Nat) :
    Nat × Errno :=
  if terminated then (0, .ECONNABORTED)
  else if unhandledAttr then (0, .ENODATA)
  else
    match vpathEntry with
    | none => (0, Errno.EREMOTEIO)
    | some vp =>
      if vp.kind = VPathKind.virtualDir then (0, Errno.EREMOTEIO)
      else if !ensureOk then (0, Errno.EREMOTEIO)
      else if !irodsPathOk then (0, Errno.EREMOTEIO)
      else
        match getResult with
        | .error .notFound => (0, .ENOENT)
        | .error .other => (0, Errno.EREMOTEIO)
        | .ok none => (0, .ENODATA)
        | .ok (some value) =>
          if destLen < value.length then (value.length, .ERANGE)
          else (value.length, .OK)

/-- Shallow embedding of `File.Setxattr` (`src/irodsfs/file.go`, lines
330-393): unhandled attributes are rejected with `EINVAL`; otherwise the value
is forwarded to the backend. -/
def fileSetxattr (terminated unhandledAttr : Bool)
    (vpathEntry : Option VPathEntry) (ensureOk irodsPathOk : Bool)
    (setResult : Except BackendErr Unit) : Errno :=
  if terminated then .ECONNABORTED
  else if unhandledAttr then .EINVAL
  else
    match vpathEntry with
    | none => Errno.EREMOTEIO
    | some vp =>
      if vp.kind = VPathKind.virtualDir then Errno.EREMOTEIO
      else if !ensureOk then Errno.EREMOTEIO
      else if !irodsPathOk then Errno.EREMOTEIO
      else
        match setResult with
        | .error .notFound => .ENOENT
        | .error .other => Errno.EREMOTEIO
        | .ok _ => .OK

/-- Shallow embedding of `File.Removexattr` (`src/irodsfs/file.go`, lines
397-469): the metadata entry is looked up first (`ENODATA` when absent), then
removed. -/
def fileRemovexattr (terminated : Bool) (vpathEntry : Option VPathEntry)
    (ensureOk irodsPathOk : Bool)
    (getResult : Except BackendErr (Option (List Char)))
    (removeResult : Except BackendErr Unit) : Errno :=
  if terminated then .ECONNABORTED
  else
    match vpathEntry with
    | none => Errno.EREMOTEIO
    | some vp =>
      if vp.kind = VPathKind.virtualDir then Errno.EREMOTEIO
      else if !ensureOk then Errno.EREMOTEIO
      else if !irodsPathOk then Errno.EREMOTEIO
      else
        match getResult with
        | .error .notFound => .ENOENT
        | .error .other => Errno.EREMOTEIO
        | .ok none => .ENODATA
        | .ok (some _) =>
          match removeResult with
          | .error .notFound => .ENOENT
          | .error .other => Errno.EREMOTEIO
          | .ok _ => .OK

/-! ### Model of Go `net/url.Parse` and `path.Join`, and `ParsePoolServiceEndpoint`

`ParsePoolServiceEndpoint` (`src/commons/config.go`, lines 455-476) delegates
to the Go standard library. The definitions below embed the parts of
`net/url.parse` (with `viaRequest = false`) and `path.Join`/`path.Clean` that
its inputs can reach. Strings are modelled as `List Char`. -/

/-- Character lists standing for Go strings in the URL model. -/
abbrev Chars := List Char

/-- Lowercasing used by `strings.ToLower` on schemes (ASCII inputs). -/
def toLowerChars (s : Chars) : Chars := s.map Char.toLower

/-- Models `strings.HasPrefix s pat`. -/
def listStartsWith : Chars → Chars → Bool
  | _, [] => true
  | [], _ :: _ => false
  | c :: cs, p :: ps => c = p && listStartsWith cs ps

/-- Models `strings.Cut s sep` for a one-character separator: the part before
the first occurrence, the part after it, and whether it was found. -/
def cutFirst (sep : Char) : Chars → Chars × Chars × Bool
  | [] => ([], [], false)
  | c :: cs =>
    if c = sep then ([], cs, true)
    else
      let r := cutFirst sep cs
      (c :: r.1, r.2.1, r.2.2)

/-- Splits at the last occurrence of `sep` (Go `strings.LastIndex`): `none`
when absent, else the parts before and after the separator. -/
def cutLast (sep : Char) : Chars → Option (Chars × Chars)
  | [] => none
  | c :: cs =>
    match cutLast sep cs with
    | some (b, a) => some (c :: b, a)
    | none => if c = sep then some ([], cs) else none

/-- Hex digit test of `net/url.ishex`. -/
def isHexChar (c : Char) : Bool :=
  c.isDigit || ('a' ≤ c && c ≤ 'f') || ('A' ≤ c && c ≤ 'F')

/-- Hex digit value of `net/url.unhex`. -/
def hexVal (c : Char) : Nat :=
  if c.isDigit then c.toNat - '0'.toNat
  else if 'a' ≤ c && c ≤ 'f' then c.toNat - 'a'.toNat + 10
  else c.toNat - 'A'.toNat + 10

/-- Sub-delimiters and host-specific characters that `net/url.shouldEscape`
accepts raw inside a host. -/
def isHostSpecial (c : Char) : Bool :=
  c ∈ ['!', '$', '&', '\'', '(', ')', '*', '+', ',', ';', '=', ':', '[', ']', '<', '>', '"']

/-- RFC 3986 unreserved characters, accepted raw everywhere by
`net/url.shouldEscape`. -/
def isUnreservedChar (c : Char) : Bool :=
  c.isAlpha || c.isDigit || c ∈ ['-', '.', '_', '~']

/-- `net/url.shouldEscape c encodeHost`: anything neither unreserved nor in
the host-specific set must be escaped (and is rejected raw). -/
def shouldEscapeHost (c : Char) : Bool := !(isUnreservedChar c || isHostSpecial c)

/-- The `net/url` encoding modes reachable from `url.Parse` on the endpoint
strings: host, path, userinfo and fragment components. -/
inductive EncodeMode where
  | host | path | userinfo | fragment
deriving DecidableEq, Repr

/-- Models `net/url.unescape s mode` for the modes above: percent escapes
need two hex digits; in host mode an escape below `%80` other than `%25` is
rejected, `+` passes through, and a raw ASCII character that would need
escaping is rejected. -/
def goUnescape (mode : EncodeMode) : Chars → Except Unit Chars
  | [] => .ok []
  | c :: rest =>
    if c = '%' then
      match rest with
      | a :: b :: rest2 =>
        if !(isHexChar a && isHexChar b) then .error ()
        else if mode = EncodeMode.host && hexVal a < 8 && !(a = '2' && b = '5') then .error ()
        else
          match goUnescape mode rest2 with
          | .error e => .error e
          | .ok t => .ok (Char.ofNat (hexVal a * 16 + hexVal b) :: t)
      | _ => .error ()
    else if c = '+' then
      match goUnescape mode rest with
      | .error e => .error e
      | .ok t => .ok ('+' :: t)
    else if mode = EncodeMode.host && c.toNat < 128 && shouldEscapeHost c then .error ()
    else
      match goUnescape mode rest with
      | .error e => .error e
      | .ok t => .ok (c :: t)

/-- Models `net/url.validOptionalPort`: empty, or a colon followed by decimal
digits only. -/
def validOptionalPort : Chars → Bool
  | [] => true
  | ':' :: rest => rest.all Char.isDigit
  | _ => false

/-- Models `net/url.parseHost`: bracketed hosts must close their bracket and
carry a valid optional port after it; otherwise everything after the last
colon must be a valid optional port; the host is then unescaped in host
mode. -/
def goParseHost (host : Chars) : Except Unit Chars :=
  if listStartsWith host ['['] then
    match cutLast ']' host with
    | none => .error ()
    | some (_, after) =>
      if !validOptionalPort after then .error ()
      else goUnescape .host host
  else
    match cutLast ':' host with
    | none => goUnescape .host host
    | some (_, after) =>
      if !validOptionalPort (':' :: after) then .error ()
      else goUnescape .host host

/-- Characters `net/url.validUserinfo` accepts. -/
def validUserinfoChar (c : Char) : Bool :=
  c.isAlpha || c.isDigit ||
  c ∈ ['-', '.', '_', ':', '~', '!', '$', '&', '\'', '(', ')', '*', '+', ',', ';', '=', '%', '@']

/-- Models `net/url.parseAuthority`: the host is everything after the last
`@`; the userinfo before it must be valid and unescape cleanly (split at the
first colon into user and password when present). Only the host is needed
downstream. -/
def goParseAuthority (authority : Chars) : Except Unit Chars :=
  match cutLast '@' authority with
  | none => goParseHost authority
  | some (userinfo, hostPart) =>
    match goParseHost hostPart with
    | .error e => .error e
    | .ok host =>
      if !userinfo.all validUserinfoChar then .error ()
      else
        let cu := cutFirst ':' userinfo
        if cu.2.2 then
          match goUnescape .userinfo cu.1, goUnescape .userinfo cu.2.1 with
          | .ok _, .ok _ => .ok host
          | _, _ => .error ()
        else
          match goUnescape .userinfo userinfo with
          | .ok _ => .ok host
          | .error e => .error e

/-- Scheme characters allowed after the first position
(`net/url.getScheme`). -/
def isSchemeTailChar (c : Char) : Bool := c.isDigit || c ∈ ['+', '-', '.']

/-- The scan of `net/url.getScheme`: letters continue the scheme; digits and
`+ - .` continue it except at the first position (then the whole string has no
scheme); a colon ends it (an immediate colon is the "missing protocol scheme"
error); any other character means no scheme. `.ok (scheme, rest)` with an
empty scheme returns the original string as rest. -/
def getSchemeAux (orig : Chars) : Chars → Chars → Except Unit (Chars × Chars)
  | _, [] => .ok ([], orig)
  | acc, c :: cs =>
    if c.isAlpha then getSchemeAux orig (acc ++ [c]) cs
    else if isSchemeTailChar c then
      if acc.isEmpty then .ok ([], orig) else getSchemeAux orig (acc ++ [c]) cs
    else if c = ':' then
      if acc.isEmpty then .error () else .ok (acc, cs)
    else .ok ([], orig)

/-- Models `net/url.getScheme`. -/
def getScheme (s : Chars) : Except Unit (Chars × Chars) := getSchemeAux s [] s

/-- The components of a parsed URL used by `ParsePoolServiceEndpoint`:
`scheme` (lowercased), the `Opaque` part `opq`, `host` and the path
`upath`. -/
structure GoURL where
  scheme : Chars
  opq : Chars
  host : Chars
  upath : Chars
deriving DecidableEq, Repr

/-- An ASCII control character as rejected by `net/url.stringContainsCTLByte`:
a byte below the space character or the DEL byte `0x7f`. (Go scans bytes, but
a character is a control byte exactly when its code point is below `0x20` or
equal to `0x7f` — the UTF-8 bytes of larger code points are all `0x80` or
above.) -/
def isCTLChar (c : Char) : Bool := c.toNat < 32 || c.toNat = 127

/-- Models `net/url.stringContainsCTLByte`, the first check of
`net/url.parse`. -/
def stringContainsCTLByte (s : Chars) : Bool := s.any isCTLChar

/-- The query-stripping step of `net/url.parse`: a URL whose only `?` is its
final character keeps that marker as `ForceQuery` and drops it; otherwise
everything from the first `?` on is the raw query and is cut away. -/
def stripQuery (rest0 : Chars) : Chars :=
  if rest0.getLast? = some '?' ∧ ¬ rest0.dropLast.contains '?' then
    rest0.dropLast
  else (cutFirst '?' rest0).1

/-- Models `net/url.parse rawURL false` (without the fragment split): reject
control characters, extract and lowercase the scheme, strip the query, treat
a rootless remainder of a scheme-ful URL as `Opaque`, reject a colon in the
first path segment of a scheme-less URL, parse `//authority` into the host,
and unescape the rest as the path. -/
def goParseInner (rawURL : Chars) : Except Unit GoURL :=
  if stringContainsCTLByte rawURL then .error ()
  else
  match getScheme rawURL with
  | .error e => .error e
  | .ok sr =>
    let scheme := toLowerChars sr.1
    let rest := stripQuery sr.2
    if !listStartsWith rest ['/'] ∧ scheme ≠ [] then
      .ok { scheme := scheme, opq := rest, host := [], upath := [] }
    else if !listStartsWith rest ['/'] ∧ (cutFirst '/' rest).1.contains ':' then
      .error ()
    else if (scheme ≠ [] || !listStartsWith rest ['/', '/', '/'])
        && listStartsWith rest ['/', '/'] then
      let after2 := rest.drop 2
      let authority := after2.takeWhile (fun c => c ≠ '/')
      let rest2 := after2.dropWhile (fun c => c ≠ '/')
      match goParseAuthority authority with
      | .error e => .error e
      | .ok host =>
        match goUnescape .path rest2 with
        | .error e => .error e
        | .ok p => .ok { scheme := scheme, opq := [], host := host, upath := p }
    else
      match goUnescape .path rest with
      | .error e => .error e
      | .ok p => .ok { scheme := scheme, opq := [], host := [], upath := p }

/-- Models `net/url.Parse`: split off the fragment at the first `#`, parse the
rest, then validate the fragment's escapes when one is present. -/
def goURLParse (rawURL : Chars) : Except Unit GoURL :=
  let cf := cutFirst '#' rawURL
  match goParseInner cf.1 with
  | .error e => .error e
  | .ok url =>
    if cf.2.2 ∧ cf.2.1 ≠ [] then
      match goUnescape .fragment cf.2.1 with
      | .error e => .error e
      | .ok _ => .ok url
    else .ok url

/-- Splits a character list at every occurrence of `sep`; inverse of joining
with `sep`, always non-empty. -/
def splitOnChar (sep : Char) : Chars → List Chars
  | [] => [[]]
  | c :: cs =>
    let r := splitOnChar sep cs
    if c = sep then [] :: r
    else
      match r with
      | [] => [[c]]
      | s :: rest => (c :: s) :: rest

/-- The segment stack of Go `path.Clean` for rooted paths: empty and `.`
segments vanish, `..` pops the latest kept segment (or nothing at the root),
any other segment is kept. -/
def cleanRootedStack : List Chars → List Chars → List Chars
  | stack, [] => stack.reverse
  | stack, seg :: rest =>
    if seg = [] || seg = ['.'] then cleanRootedStack stack rest
    else if seg = ['.', '.'] then cleanRootedStack stack.tail rest
    else cleanRootedStack (seg :: stack) rest

/-- Joins segments with `/` separators. -/
def joinSegs : List Chars → Chars
  | [] => []
  | [s] => s
  | s :: rest => s ++ '/' :: joinSegs rest

/-- Models Go `path.Join "/" p`, i.e. `path.Clean ("//" ++ p)` (for an empty
`p` only the `"/"` element remains and `Clean "/" = "/"`): the rooted clean
keeps the processed segments behind a leading slash. -/
def goPathJoinRoot (p : Chars) : Chars :=
  if p = [] then ['/']
  else '/' :: joinSegs (cleanRootedStack [] (splitOnChar '/' ('/' :: '/' :: p)))

/-- A path segment that `path.Clean` keeps unchanged: non-empty, not `.` or
`..`, and free of slashes. -/
def isCleanSeg (s : Chars) : Bool :=
  !s.isEmpty && s ≠ ['.'] && s ≠ ['.', '.'] && s.all (fun c => c ≠ '/')

/-- A rooted path that is a fixpoint of `path.Clean`: a leading slash followed
by clean segments. -/
def isCleanRootedPath : Chars → Bool
  | [] => false
  | c :: q => c = '/' && (splitOnChar '/' q).all isCleanSeg

/-- Characters of an ordinary DNS-style host name (letters, digits, hyphen,
dot), used to state the endpoint-parser properties. -/
def isHostnameChar (c : Char) : Bool :=
  c.isAlpha || c.isDigit || c = '-' || c = '.'

/-- The distinguishable error results of `ParsePoolServiceEndpoint`: a
`url.Parse` failure, the "unknown host" error of a scheme-less URL without a
host, and the "unsupported protocol" error of any other scheme. -/
inductive EndpointErr where
  | parseFailed | unknownHost | unsupportedProtocol
deriving DecidableEq, Repr

/-- Shallow embedding of `ParsePoolServiceEndpoint` (`src/commons/config.go`,
lines 455-476): parse the endpoint as a URL, then dispatch on the lowercased
scheme — `tcp` keeps the host, `unix` joins the path onto `/`, an empty
scheme keeps a non-empty host as a tcp address, anything else is an
unsupported protocol. -/
def ParsePoolServiceEndpoint (endpoint : Chars) :
    Except EndpointErr (Chars × Chars) :=
  match goURLParse endpoint with
  | .error _ => .error .parseFailed
  | .ok u =>
    let scheme := toLowerChars u.scheme
    if scheme = "tcp".toList then .ok ("tcp".toList, u.host)
    else if scheme = "unix".toList then .ok ("unix".toList, goPathJoinRoot u.upath)
    else if scheme = [] then
      if u.host.length > 0 then .ok ("tcp".toList, u.host)
      else .error .unknownHost
    else .error .unsupportedProtocol

/-! ### Claims -/

/-- C8: `File.Open` translates POSIX flags to an open mode with first-match
priority — `O_WRONLY` with `O_APPEND` gives Append, `O_WRONLY` with `O_TRUNC`
gives WriteTruncate, `O_WRONLY` alone gives WriteOnly, otherwise `O_RDWR`
gives ReadWrite, and every other combination gives ReadOnly: the code's
translation coincides with the spec's ordered case list on every flag
word. -/
theorem C8_open_mode_translation (flags : Nat) :
    openModeOfFlags flags = specOpenModeOfFlags flags := by
  unfold openModeOfFlags specOpenModeOfFlags
  split_ifs <;> simp_all

/-- C4 counterexample: a write of one byte at offset `-1` on a live write-mode
handle returns errno `EBADFD`, not the `EINVAL` the claim derives from the
`BadOffset` error kind. -/
theorem C4_write_neg_offset_counterexample :
    fileHandleWrite false true FileOpenMode.writeOnly true 1 (-1) (.ok 1)
      = (0, Errno.EBADFD) ∧ Errno.EBADFD ≠ Errno.EINVAL := by
  exact ⟨rfl, by decide⟩

/-- C4 (amended): on a live write-mode handle, a zero-length write returns
`(0, OK)` (the length check comes first, so even a negative offset is
accepted then), and a non-empty write at a negative offset fails with errno
`EBADFD`. -/
theorem C4_write_zero_len_and_neg_offset (hasBackend : Bool)
    (mode : FileOpenMode) (hasWriter : Bool) (dataLen : Nat) (offset : Int)
    (wr : WriterResult) (hb : hasBackend = true) (hm : mode.isWrite = true)
    (hw : hasWriter = true) :
    (dataLen = 0 →
      fileHandleWrite false hasBackend mode hasWriter dataLen offset wr
        = (0, Errno.OK)) ∧
    (dataLen ≠ 0 → offset < 0 →
      fileHandleWrite false hasBackend mode hasWriter dataLen offset wr
        = (0, Errno.EBADFD)) := by
  subst hb hw
  constructor
  · intro h0
    simp [fileHandleWrite, hm, h0]
  · intro h0 hneg
    simp [fileHandleWrite, hm, h0, hneg]

/-- C4 witness: the amended statement evaluated at a zero-length write and at
a one-byte write with offset `-1`. -/
theorem C4_write_zero_len_and_neg_offset_witness :
    fileHandleWrite false true FileOpenMode.writeOnly true 0 0 (.ok 0)
      = (0, Errno.OK) ∧
    fileHandleWrite false true FileOpenMode.writeOnly true 1 (-1) (.ok 0)
      = (0, Errno.EBADFD) :=
  ⟨(C4_write_zero_len_and_neg_offset true .writeOnly true 0 0 (.ok 0)
      rfl rfl rfl).1 rfl,
   (C4_write_zero_len_and_neg_offset true .writeOnly true 1 (-1) (.ok 0)
      rfl rfl rfl).2 (by decide) (by decide)⟩

/-- C6: on a live read-mode handle, a read whose offset is at or past the
entry size known to the handle returns zero bytes with no error — the code
short-circuits strictly past the size, and at the size itself it delegates to
the reader pipeline, whose contract (spec section 4.2) returns zero bytes at
or past end of file. -/
theorem C6_read_at_or_past_eof (hasBackend : Bool) (mode : FileOpenMode)
    (hasReader : Bool) (size : Int) (destLen : Nat) (offset : Int)
    (readerReadAt : Nat → Int → ReaderResult) (hb : hasBackend = true)
    (hm : mode.isRead = true) (hr : hasReader = true)
    (hcontract : ∀ dl off, off ≥ size →
      readerReadAt dl off = (0, some ReadErr.eof) ∨ readerReadAt dl off = (0, none))
    (hge : offset ≥ size) :
    fileHandleRead false hasBackend mode hasReader size destLen offset
      readerReadAt = .ok 0 := by
  subst hb hr
  by_cases hgt : offset > size
  · simp [fileHandleRead, hm, hgt]
  · rcases hcontract destLen offset hge with h | h <;>
      simp [fileHandleRead, hm, hgt, h]

/-- C6 witness: reading 10 bytes at offset 5 of a 5-byte file through the
spec-modelled reader returns zero bytes. -/
theorem C6_read_at_or_past_eof_witness :
    fileHandleRead false true FileOpenMode.readOnly true 5 10 5
      (specReaderReadAt 5) = .ok 0 :=
  C6_read_at_or_past_eof true .readOnly true 5 10 5 (specReaderReadAt 5)
    rfl rfl rfl
    (fun dl off h => Or.inl (by simp [specReaderReadAt, h])) (by decide)

/-- C3 counterexample: opening a file of a read-only mapping with `O_WRONLY`
fails with errno EREMOTEIO, not the `EROFS` the claim derives from the
`ReadOnlyFs` error kind. -/
theorem C3_readonly_open_counterexample :
    fileOpen false O_WRONLY (some ⟨VPathKind.irods, true⟩) true true (.ok ())
      true [] 0 "/p" = .error Errno.EREMOTEIO ∧
    Errno.EREMOTEIO ≠ Errno.EROFS := by
  exact ⟨rfl, by decide⟩

/-- C3 (amended): for a path resolving to a read-only mapping, `File.Open`
with any non-read-only mode fails with errno EREMOTEIO (the code's generic
remote-I/O errno), and `File.Open` with a read-only mode passes the check and
succeeds whenever the backend open succeeds. -/
theorem C3_readonly_mapping_open (flags : Nat) (ensureOk irodsPathOk : Bool)
    (backendOpen : Except BackendErr Unit) (newHandleOk : Bool)
    (registry : List HandleInfo) (newHid : Nat) (path : String) :
    (openModeOfFlags flags ≠ FileOpenMode.readOnly →
      fileOpen false flags (some ⟨VPathKind.irods, true⟩) ensureOk irodsPathOk
        backendOpen newHandleOk registry newHid path
        = .error Errno.EREMOTEIO) ∧
    (openModeOfFlags flags = FileOpenMode.readOnly → ensureOk = true →
      irodsPathOk = true → backendOpen = .ok () → newHandleOk = true →
      fileOpen false flags (some ⟨VPathKind.irods, true⟩) ensureOk irodsPathOk
        backendOpen newHandleOk registry newHid path
        = .ok (registry ++ [⟨newHid, path, FileOpenMode.readOnly, true⟩],
            FileOpenMode.readOnly)) := by
  constructor
  · intro hm
    simp [fileOpen, hm]
  · intro hm he hi hb hn
    subst he hi hb hn
    simp [fileOpen, hm]

/-- C3 witness: the amended statement evaluated at `O_WRONLY` (rejected with
EREMOTEIO) and at read-only flags (handle registered). -/
theorem C3_readonly_mapping_open_witness :
    fileOpen false 1 (some ⟨VPathKind.irods, true⟩) true true (.ok ()) true []
      7 "/p" = .error Errno.EREMOTEIO ∧
    fileOpen false 0 (some ⟨VPathKind.irods, true⟩) true true (.ok ()) true []
      7 "/p" = .ok ([⟨7, "/p", FileOpenMode.readOnly, true⟩],
        FileOpenMode.readOnly) := by
  refine ⟨(C3_readonly_mapping_open 1 true true (.ok ()) true [] 7 "/p").1
    (by decide), ?_⟩
  have h := (C3_readonly_mapping_open 0 true true (.ok ()) true [] 7 "/p").2
    (by decide) rfl rfl rfl rfl
  simpa using h

/-- The truncate loop over handles none of which is in write mode does
nothing and reports that no handle truncation happened. -/
theorem truncateLoop_no_write (handleBackendOk : Nat → Bool)
    (hs : List HandleInfo) (h : ∀ x ∈ hs, x.mode.isWrite = false) :
    truncateLoop false handleBackendOk hs = (Errno.OK, false, []) := by
  induction hs with
  | nil => rfl
  | cons a rest ih =>
    have ha := h a (List.mem_cons_self a rest)
    simp [truncateLoop, ha, ih fun x hx => h x (List.mem_cons_of_mem a hx)]

/-- The truncate loop delegates to the first write-mode handle found and
stops there: the backend sees exactly that handle's truncate call. -/
theorem truncateLoop_first_write (handleBackendOk : Nat → Bool)
    (hs : List HandleInfo) (w : HandleInfo)
    (hw : hs.find? (fun x => x.mode.isWrite) = some w)
    (hback : ∀ x ∈ hs, x.hasBackend = true) :
    truncateLoop false handleBackendOk hs =
      (if handleBackendOk w.hid then
        (Errno.OK, true, [TruncEvent.viaHandle w.hid])
       else ( Errno.EREMOTEIO, false, [TruncEvent.viaHandle w.hid])) := by
  induction hs with
  | nil => simp at hw
  | cons a rest ih =>
    by_cases hwa : a.mode.isWrite = true
    · simp only [List.find?_cons, hwa] at hw
      have haw : a = w := by injection hw
      subst haw
      have hab := hback a (List.mem_cons_self a rest)
      by_cases hbo : handleBackendOk a.hid = true <;>
        simp [truncateLoop, hwa, fileHandleTruncate, hab, hbo]
    · have hwa' : a.mode.isWrite = false := by simpa using hwa
      simp only [List.find?_cons, hwa'] at hw
      have := ih hw fun x hx => hback x (List.mem_cons_of_mem a hx)
      simpa [truncateLoop, hwa'] using this

/-- C2 counterexample: with no registered handle at all and the entry already
at the requested size, `File.Truncate` issues no backend truncate call, while
the claim requires a direct backend `Truncate` whenever no write-mode handle
exists. -/
theorem C2_truncate_counterexample :
    fileTruncate false (some ⟨VPathKind.irods, false⟩) true (.ok ⟨"/z/f", 5⟩)
      [] (fun _ => true) (.ok ()) 5 = (Errno.OK, []) := by
  rfl

/-- C2 (amended): when at least one registered handle for the entry's path is
in write mode, `File.Truncate` delegates the size change to exactly the first
such handle's backend truncate and to no other handle and never calls the
direct backend truncate; when no write-mode handle exists, the direct backend
truncate is issued exactly when the entry's current size differs from the
requested size. -/
theorem C2_truncate_delegation (ro : Bool) (registry : List HandleInfo)
    (handleBackendOk : Nat → Bool) (directResult : Except BackendErr Unit)
    (entry : IRODSEntry) (size : Nat)
    (hback : ∀ x ∈ registry, x.hasBackend = true) :
    (∀ w, (registry.filter (fun h => h.path = entry.epath)).find?
        (fun x => x.mode.isWrite) = some w →
      (fileTruncate false (some ⟨VPathKind.irods, ro⟩) true (.ok entry)
        registry handleBackendOk directResult size).2
        = [TruncEvent.viaHandle w.hid]) ∧
    ((∀ x ∈ registry.filter (fun h => h.path = entry.epath),
        x.mode.isWrite = false) →
      entry.esize ≠ int64OfUint64 size →
      (fileTruncate false (some ⟨VPathKind.irods, ro⟩) true (.ok entry)
        registry handleBackendOk directResult size).2
        = [TruncEvent.direct]) := by
  constructor
  · intro w hw
    have hbf : ∀ x ∈ registry.filter (fun h => h.path = entry.epath),
        x.hasBackend = true :=
      fun x hx => hback x (List.mem_of_mem_filter hx)
    have hl := truncateLoop_first_write handleBackendOk _ w hw hbf
    by_cases hbo : handleBackendOk w.hid = true <;>
      simp [fileTruncate, hl, hbo]
  · intro hnw hsz
    have hl := truncateLoop_no_write handleBackendOk _ hnw
    rcases directResult with e | u
    · cases e <;> simp [fileTruncate, hl, hsz]
    · simp [fileTruncate, hl, hsz]

/-- C2 witness: a registry holding a read-only and a write handle for the
path delegates to the write handle only; an empty registry with a size
mismatch produces exactly the direct call. -/
theorem C2_truncate_delegation_witness :
    (fileTruncate false (some ⟨VPathKind.irods, false⟩) true (.ok ⟨"/z/f", 9⟩)
      [⟨1, "/z/f", FileOpenMode.readOnly, true⟩,
       ⟨2, "/z/f", FileOpenMode.writeOnly, true⟩,
       ⟨3, "/z/f", FileOpenMode.append, true⟩]
      (fun _ => true) (.ok ()) 5).2 = [TruncEvent.viaHandle 2] ∧
    (fileTruncate false (some ⟨VPathKind.irods, false⟩) true (.ok ⟨"/z/f", 9⟩)
      [] (fun _ => true) (.ok ()) 5).2 = [TruncEvent.direct] := by
  constructor
  · exact (C2_truncate_delegation false _ _ _ _ 5 (by decide)).1
      ⟨2, "/z/f", FileOpenMode.writeOnly, true⟩ (by decide)
  · exact (C2_truncate_delegation false [] _ _ ⟨"/z/f", 9⟩ 5 (by decide)).2
      (by decide) (by decide)

/-- C10: when no registered write-mode handle exists for the path and the
entry's size already equals the requested size, `File.Truncate` makes no
backend truncate call at all and returns success. -/
theorem C10_truncate_size_equal_no_call (ro : Bool)
    (registry : List HandleInfo) (handleBackendOk : Nat → Bool)
    (directResult : Except BackendErr Unit) (entry : IRODSEntry) (size : Nat)
    (hnw : ∀ x ∈ registry.filter (fun h => h.path = entry.epath),
      x.mode.isWrite = false)
    (hsz : entry.esize = int64OfUint64 size) :
    fileTruncate false (some ⟨VPathKind.irods, ro⟩) true (.ok entry) registry
      handleBackendOk directResult size = (Errno.OK, []) := by
  have hl := truncateLoop_no_write handleBackendOk _ hnw
  simp [fileTruncate, hl, hsz]

/-- C10 witness: a registry with only a read-only handle and a matching size
requires no backend call. -/
theorem C10_truncate_size_equal_no_call_witness :
    fileTruncate false (some ⟨VPathKind.irods, false⟩) true (.ok ⟨"/z/f", 5⟩)
      [⟨1, "/z/f", FileOpenMode.readOnly, true⟩] (fun _ => true) (.ok ()) 5
      = (Errno.OK, []) :=
  C10_truncate_size_equal_no_call false _ _ _ ⟨"/z/f", 5⟩ 5 (by decide)
    (by decide)

/-- C5 counterexample: an unlock request on an empty lock table fails with
errno `ENOENT`, not the `ENOLCK` the claim derives from the `NoSuchLock`
error kind. -/
theorem C5_unlock_counterexample :
    fileHandleSetLocalLock false [] ⟨F_UNLCK, 10, 0, 100⟩
      = (Errno.ENOENT, []) ∧ Errno.ENOENT ≠ Errno.ENOLCK := by
  exact ⟨rfl, by decide⟩

/-- C5 (amended): `SetLocalLock` with type `F_UNLCK` removes every record
whose range intersects the request's range and succeeds when at least one
record intersected; when no record intersects it fails with errno `ENOENT`
(the lock-manager behaviour is modelled from the spec, its file is not under
src). -/
theorem C5_unlock_behaviour (table : List FileHandleLocalLock)
    (l : FileHandleLocalLock) (hty : l.lockType = F_UNLCK) :
    (table.any (fun r => lockIntersects r l) = true →
      fileHandleSetLocalLock false table l
        = (Errno.OK, table.filter (fun r => !lockIntersects r l))) ∧
    (table.any (fun r => lockIntersects r l) = false →
      fileHandleSetLocalLock false table l = (Errno.ENOENT, table)) := by
  constructor <;> intro h <;>
    simp [fileHandleSetLocalLock, hty, lockManagerUnlock, h]

/-- C5 witness: a one-record table intersected by the unlock range loses the
record; a disjoint unlock range reports `ENOENT` and leaves the table. -/
theorem C5_unlock_behaviour_witness :
    fileHandleSetLocalLock false [⟨F_WRLCK, 1, 0, 10⟩] ⟨F_UNLCK, 1, 5, 15⟩
      = (Errno.OK, []) ∧
    fileHandleSetLocalLock false [⟨F_WRLCK, 1, 0, 10⟩] ⟨F_UNLCK, 1, 50, 60⟩
      = (Errno.ENOENT, [⟨F_WRLCK, 1, 0, 10⟩]) := by
  constructor
  · have h := (C5_unlock_behaviour [⟨F_WRLCK, 1, 0, 10⟩] ⟨F_UNLCK, 1, 5, 15⟩
      rfl).1 (by decide)
    simpa using h
  · exact (C5_unlock_behaviour [⟨F_WRLCK, 1, 0, 10⟩] ⟨F_UNLCK, 1, 50, 60⟩
      rfl).2 (by decide)

/-- C1 counterexample: when the reader pipeline reports a sticky error,
`Release` returns EREMOTEIO and the registry still contains the handle —
the claim requires the registry to be empty of the handle regardless of
sticky errors. -/
theorem C1_release_counterexample :
    (fileHandleRelease false true 7 FileOpenMode.readWrite true true false
      false false [7]).registry = [7] ∧
    (fileHandleRelease false true 7 FileOpenMode.readWrite true true false
      false false [7]).errno = Errno.EREMOTEIO := by
  exact ⟨rfl, rfl⟩

/-- C1 (amended): when neither pipeline reports a sticky error, `Release`
returns OK, runs `closeFunc` synchronously for non-read-only handles and
defers it to a goroutine exactly for read-only handles; once the (possibly
deferred) close has run, the registry no longer contains the handle, and the
registry removal precedes the backend `Close` in the event order. With a
sticky pipeline error, `Release` returns EREMOTEIO without removing the
handle (see the counterexample). -/
theorem C1_release_removes_then_closes (hasBackend : Bool) (hid : Nat)
    (mode : FileOpenMode)
    (hasReader readerErr hasWriter writerErr hasReportClient : Bool)
    (registry : List Nat) (r : ReleaseResult) (hb : hasBackend = true)
    (hre : (hasReader && readerErr) = false)
    (hwe : (hasWriter && writerErr) = false)
    (hr : r = fileHandleRelease false hasBackend hid mode hasReader readerErr
      hasWriter writerErr hasReportClient registry) :
    r.errno = Errno.OK ∧ r.deferredClose = mode.isReadOnly ∧
    hid ∉ releaseFinalRegistry r hid hasReportClient ∧
    ∃ pre mid post, releaseFullEvents r hid hasReportClient =
      pre ++ RelEvent.removedFromMap hid ::
        (mid ++ RelEvent.backendClosed hid :: post) := by
  subst hb hr
  by_cases hro : mode.isReadOnly = true
  · refine ⟨?_, ?_, ?_,
      (if hasReader then [RelEvent.readerReleased] else []) ++
        (if hasWriter then [RelEvent.writerReleased] else []),
      (if hasReportClient then [RelEvent.reportedDone hid] else []), [], ?_⟩ <;>
      simp [fileHandleRelease, hre, hwe, hro, releaseFinalRegistry,
        releaseFullEvents, closeFunc, List.mem_filter]
  · refine ⟨?_, ?_, ?_,
      (if hasReader then [RelEvent.readerReleased] else []) ++
        (if hasWriter then [RelEvent.writerReleased] else []),
      (if hasReportClient then [RelEvent.reportedDone hid] else []), [], ?_⟩ <;>
      simp [fileHandleRelease, hre, hwe, hro, releaseFinalRegistry,
        releaseFullEvents, closeFunc, List.mem_filter]

/-- C1 witness: a read-write handle with clean pipelines: the registry drops
the handle and removal precedes the backend close. -/
theorem C1_release_removes_then_closes_witness :
    (fileHandleRelease false true 7 FileOpenMode.readWrite true false true
      false true [7, 9]).errno = Errno.OK ∧
    (fileHandleRelease false true 7 FileOpenMode.readWrite true false true
      false true [7, 9]).deferredClose = FileOpenMode.readWrite.isReadOnly ∧
    7 ∉ releaseFinalRegistry (fileHandleRelease false true 7
      FileOpenMode.readWrite true false true false true [7, 9]) 7 true ∧
    ∃ pre mid post, releaseFullEvents (fileHandleRelease false true 7
      FileOpenMode.readWrite true false true false true [7, 9]) 7 true =
      pre ++ RelEvent.removedFromMap 7 ::
        (mid ++ RelEvent.backendClosed 7 :: post) :=
  C1_release_removes_then_closes true 7 FileOpenMode.readWrite true false true
    false true [7, 9] _ rfl rfl rfl rfl

/-- C7: once the termination flag is set, every embedded filesystem
operation — Open, Read, Write, Truncate (handle and file level), Flush,
Fsync, Release, Getattr, Setattr (handle and file level), the xattr
operations and the lock operations — returns `ECONNABORTED` as its first
action, leaving the registry and lock table unchanged and issuing no backend
call. -/
theorem C7_termination_guard :
    (∀ flags vp eo ipo bo nho reg hid p,
      fileOpen true flags vp eo ipo bo nho reg hid p
        = .error Errno.ECONNABORTED) ∧
    (∀ hb mode hrd size dl off rra,
      fileHandleRead true hb mode hrd size dl off rra
        = .error Errno.ECONNABORTED) ∧
    (∀ hb mode hw dl off wr,
      fileHandleWrite true hb mode hw dl off wr = (0, Errno.ECONNABORTED)) ∧
    (∀ h bo, fileHandleTruncate true h bo = (Errno.ECONNABORTED, [])) ∧
    (∀ vp eo sr reg hbo dr size,
      fileTruncate true vp eo sr reg hbo dr size = (Errno.ECONNABORTED, [])) ∧
    (∀ hb hw fe, fileHandleFlush true hb hw fe = Errno.ECONNABORTED) ∧
    (∀ hb hw fe, fileHandleFsync true hb hw fe = Errno.ECONNABORTED) ∧
    (∀ hb hid mode hrd re hw we hrc reg,
      fileHandleRelease true hb hid mode hrd re hw we hrc reg
        = ⟨Errno.ECONNABORTED, reg, [], false⟩) ∧
    (∀ vp eo sr, fileGetattr true vp eo sr = .error Errno.ECONNABORTED) ∧
    (∀ vp eo sr,
      fileHandleGetattr true vp eo sr = .error Errno.ECONNABORTED) ∧
    (∀ szr vp eo sr reg hbo dr,
      fileSetattr true szr vp eo sr reg hbo dr = (Errno.ECONNABORTED, [])) ∧
    (∀ szr h bo vp eo sr reg hbo dr,
      fileHandleSetattr true szr h bo vp eo sr reg hbo dr
        = (Errno.ECONNABORTED, [])) ∧
    (∀ vp eo ipo lr dl,
      fileListxattr true vp eo ipo lr dl = (0, Errno.ECONNABORTED)) ∧
    (∀ ua vp eo ipo gr dl,
      fileGetxattr true ua vp eo ipo gr dl = (0, Errno.ECONNABORTED)) ∧
    (∀ ua vp eo ipo sres,
      fileSetxattr true ua vp eo ipo sres = Errno.ECONNABORTED) ∧
    (∀ vp eo ipo gr rr,
      fileRemovexattr true vp eo ipo gr rr = Errno.ECONNABORTED) ∧
    (∀ table l,
      fileHandleSetLocalLock true table l = (Errno.ECONNABORTED, table)) ∧
    (∀ table lk,
      fileHandleGetLocalLock true table lk = .error Errno.ECONNABORTED) ∧
    fileHandleSetLocalLockW true = Errno.ECONNABORTED := by
  exact ⟨by intros; rfl, by intros; rfl, by intros; rfl, by intros; rfl,
    by intros; rfl, by intros; rfl, by intros; rfl, by intros; rfl,
    by intros; rfl, by intros; rfl, by intros; rfl, by intros; rfl,
    by intros; rfl, by intros; rfl, by intros; rfl, by intros; rfl,
    by intros; rfl, by intros; rfl, rfl⟩

/-! ### Helper lemmas for the endpoint-parser claims -/

/-- `cutFirst` finds nothing when the separator does not occur. -/
theorem cutFirst_of_not_mem (sep : Char) (s : Chars) (h : ∀ c ∈ s, c ≠ sep) :
    cutFirst sep s = (s, [], false) := by
  induction s with
  | nil => rfl
  | cons c cs ih =>
    have hc := h c (List.mem_cons_self c cs)
    simp [cutFirst, hc, ih fun x hx => h x (List.mem_cons_of_mem c hx)]

/-- `cutLast` finds nothing when the separator does not occur. -/
theorem cutLast_of_not_mem (sep : Char) (s : Chars) (h : ∀ c ∈ s, c ≠ sep) :
    cutLast sep s = none := by
  induction s with
  | nil => rfl
  | cons c cs ih =>
    have hc := h c (List.mem_cons_self c cs)
    simp [cutLast, hc, ih fun x hx => h x (List.mem_cons_of_mem c hx)]

/-- `cutLast` splits at an explicit separator occurrence that is the last
one. -/
theorem cutLast_append_sep (sep : Char) (h p : Chars)
    (hp : ∀ c ∈ p, c ≠ sep) : cutLast sep (h ++ sep :: p) = some (h, p) := by
  induction h with
  | nil => simp [cutLast, cutLast_of_not_mem sep p hp]
  | cons c cs ih => simp [cutLast, ih]

/-- `takeWhile` keeps a list all of whose elements satisfy the predicate. -/
theorem takeWhile_eq_self_of_forall (pc : Char → Bool) (l : Chars)
    (h : ∀ c ∈ l, pc c = true) : l.takeWhile pc = l := by
  induction l with
  | nil => rfl
  | cons c cs ih =>
    simp [List.takeWhile_cons, h c (List.mem_cons_self c cs),
      ih fun x hx => h x (List.mem_cons_of_mem c hx)]

/-- `dropWhile` drops a list all of whose elements satisfy the predicate. -/
theorem dropWhile_eq_nil_of_forall (pc : Char → Bool) (l : Chars)
    (h : ∀ c ∈ l, pc c = true) : l.dropWhile pc = [] := by
  induction l with
  | nil => rfl
  | cons c cs ih =>
    simp [List.dropWhile_cons, h c (List.mem_cons_self c cs),
      ih fun x hx => h x (List.mem_cons_of_mem c hx)]

/-- The last element of a list avoiding a character is not that character. -/
theorem getLast?_ne_of_forall (l : Chars) (a : Char) (h : ∀ c ∈ l, c ≠ a) :
    l.getLast? ≠ some a := by
  intro heq
  obtain ⟨hne, hx⟩ := List.mem_getLast?_eq_getLast
    (show a ∈ l.getLast? from heq)
  exact h _ (List.getLast_mem hne) hx.symm

/-- `goUnescape` returns its input unchanged when the input has no percent
sign and (in host mode) no character that must be escaped. -/
theorem goUnescape_ok (mode : EncodeMode) (l : Chars)
    (h : ∀ c ∈ l, c ≠ '%' ∧
      (shouldEscapeHost c = false ∨ mode ≠ EncodeMode.host)) :
    goUnescape mode l = .ok l := by
  induction l with
  | nil => rfl
  | cons c cs ih =>
    obtain ⟨h1, h2⟩ := h c (List.mem_cons_self c cs)
    have ih' := ih fun x hx => h x (List.mem_cons_of_mem c hx)
    rw [goUnescape.eq_def]
    by_cases hp : c = '+'
    · subst hp
      simp [ih']
    · rcases h2 with h2 | h2 <;> simp [h1, hp, ih', h2]

/-- The scheme scan consumes scheme characters up to an explicit colon,
extending a non-empty accumulator. -/
theorem getSchemeAux_append (orig rest : Chars) (h : Chars)
    (hs : ∀ c ∈ h, c.isAlpha = true ∨ isSchemeTailChar c = true) :
    ∀ acc, acc ≠ [] →
      getSchemeAux orig acc (h ++ ':' :: rest) = .ok (acc ++ h, rest) := by
  induction h with
  | nil =>
    intro acc hacc
    have he : acc.isEmpty = false := by
      cases acc with
      | nil => exact absurd rfl hacc
      | cons _ _ => rfl
    have hA : (':' : Char).isAlpha = false := by decide
    have hT : isSchemeTailChar ':' = false := by decide
    simp [getSchemeAux, he, hA, hT]
  | cons c cs ih =>
    intro acc hacc
    by_cases hca : c.isAlpha = true
    · have := ih (fun x hx => hs x (List.mem_cons_of_mem c hx)) (acc ++ [c])
        (by simp)
      simp only [List.cons_append, getSchemeAux, hca, if_true]
      simpa [List.append_assoc] using this
    · have hct : isSchemeTailChar c = true :=
        (hs c (List.mem_cons_self c cs)).resolve_left hca
      have he : acc.isEmpty = false := by
        cases acc with
        | nil => exact absurd rfl hacc
        | cons _ _ => rfl
      have := ih (fun x hx => hs x (List.mem_cons_of_mem c hx)) (acc ++ [c])
        (by simp)
      simp only [List.cons_append, getSchemeAux, hca, hct, he, if_true,
        if_false, Bool.false_eq_true, ite_false, ite_true]
      simpa [List.append_assoc] using this

/-- A string starting with a letter followed by scheme characters and a colon
has exactly that scheme. -/
theorem getScheme_of_scheme (c0 : Char) (h rest : Chars)
    (hc0 : c0.isAlpha = true)
    (hs : ∀ c ∈ h, c.isAlpha = true ∨ isSchemeTailChar c = true) :
    getScheme (c0 :: h ++ ':' :: rest) = .ok (c0 :: h, rest) := by
  have := getSchemeAux_append (c0 :: h ++ ':' :: rest) rest h hs [c0] (by simp)
  simp only [getScheme, getSchemeAux, hc0, if_true]
  simpa using this

/-- A string whose first character is neither a letter nor a colon has no
scheme. -/
theorem getScheme_no_scheme (c0 : Char) (s : Chars)
    (hc0 : c0.isAlpha = false) (hcol : c0 ≠ ':') :
    getScheme (c0 :: s) = .ok ([], c0 :: s) := by
  by_cases hct : isSchemeTailChar c0 = true <;>
    simp [getScheme, getSchemeAux, hc0, hct, hcol]

/-- `splitOnChar` never returns the empty list of segments. -/
theorem splitOnChar_ne_nil (sep : Char) (s : Chars) :
    splitOnChar sep s ≠ [] := by
  cases s with
  | nil => simp [splitOnChar]
  | cons c cs =>
    by_cases hc : c = sep
    · simp [splitOnChar, hc]
    · simp only [splitOnChar, hc, if_false, Bool.false_eq_true, ite_false]
      rcases hr : splitOnChar sep cs with _ | ⟨s0, rest⟩
      · simp
      · simp

/-- Joining the segments of a slash split restores the original list. -/
theorem joinSegs_splitOnChar (q : Chars) :
    joinSegs (splitOnChar '/' q) = q := by
  induction q with
  | nil => rfl
  | cons c cs ih =>
    rcases hr : splitOnChar '/' cs with _ | ⟨s0, rest⟩
    · exact absurd hr (splitOnChar_ne_nil _ _)
    · rw [hr] at ih
      by_cases hc : c = '/'
      · subst hc
        simp only [splitOnChar, hr, if_pos rfl]
        simp [joinSegs, ih]
      · simp only [splitOnChar, hr, if_neg hc]
        cases rest with
        | nil =>
          simp only [joinSegs] at ih ⊢
          simp [ih]
        | cons r rs =>
          simp only [joinSegs] at ih ⊢
          simp [ih]

/-- Empty segments are skipped by the rooted clean stack. -/
theorem cleanRootedStack_nil_seg (stack : List Chars) (rest : List Chars) :
    cleanRootedStack stack ([] :: rest) = cleanRootedStack stack rest := by
  simp [cleanRootedStack]

/-- Clean segments pass through the rooted clean stack unchanged. -/
theorem cleanRootedStack_all_clean (segs : List Chars)
    (h : ∀ s ∈ segs, isCleanSeg s = true) :
    ∀ stack, cleanRootedStack stack segs = stack.reverse ++ segs := by
  induction segs with
  | nil => intro stack; simp [cleanRootedStack]
  | cons s rest ih =>
    intro stack
    have hs := h s (List.mem_cons_self s rest)
    have hne : s ≠ [] := by
      intro he; rw [he] at hs; simp [isCleanSeg] at hs
    have hdot : s ≠ ['.'] := by
      intro he; rw [he] at hs; simp [isCleanSeg] at hs
    have hdots : s ≠ ['.', '.'] := by
      intro he; rw [he] at hs; simp [isCleanSeg] at hs
    have hrec := ih (fun x hx => h x (List.mem_cons_of_mem s hx)) (s :: stack)
    simp only [cleanRootedStack]
    rw [if_neg (by simp [hne, hdot]), if_neg hdots, hrec]
    simp

/-- A clean rooted path is a fixpoint of the modelled `path.Join "/"`. -/
theorem goPathJoinRoot_clean (p : Chars) (h : isCleanRootedPath p = true) :
    goPathJoinRoot p = p := by
  rcases p with _ | ⟨c, q⟩
  · simp [isCleanRootedPath] at h
  · simp only [isCleanRootedPath, Bool.and_eq_true, decide_eq_true_eq] at h
    obtain ⟨hc, hall⟩ := h
    subst hc
    have hall' : ∀ s ∈ splitOnChar '/' q, isCleanSeg s = true := by
      simpa [List.all_eq_true] using hall
    have hsplit : splitOnChar '/' ('/' :: '/' :: '/' :: q)
        = [] :: [] :: [] :: splitOnChar '/' q := by
      simp [splitOnChar]
    simp only [goPathJoinRoot, if_neg (by simp : ¬('/' :: q : Chars) = [])]
    rw [hsplit, cleanRootedStack_nil_seg, cleanRootedStack_nil_seg,
      cleanRootedStack_nil_seg, cleanRootedStack_all_clean _ hall' []]
    simp [joinSegs_splitOnChar]

/-- Hostname characters are unreserved. -/
theorem hostnameChar_unreserved (c : Char) (h : isHostnameChar c = true) :
    isUnreservedChar c = true := by
  simp only [isHostnameChar, Bool.or_eq_true, decide_eq_true_eq] at h
  rcases h with ((h | h) | h) | h
  · simp [isUnreservedChar, h]
  · simp [isUnreservedChar, h]
  · subst h; decide
  · subst h; decide

/-- Hostname characters need no host escaping. -/
theorem hostnameChar_no_escape (c : Char) (h : isHostnameChar c = true) :
    shouldEscapeHost c = false := by
  simp [shouldEscapeHost, hostnameChar_unreserved c h]

/-- A hostname character differs from any non-hostname character. -/
theorem hostnameChar_ne_of (c a : Char) (h : isHostnameChar c = true)
    (ha : isHostnameChar a = false) : c ≠ a := by
  intro he; subst he; rw [h] at ha; cases ha

/-- Hostname characters are scheme characters (a letter or a scheme tail
character). -/
theorem hostnameChar_scheme (c : Char) (h : isHostnameChar c = true) :
    c.isAlpha = true ∨ isSchemeTailChar c = true := by
  simp only [isHostnameChar, Bool.or_eq_true, decide_eq_true_eq] at h
  rcases h with ((h | h) | h) | h
  · exact Or.inl h
  · exact Or.inr (by simp [isSchemeTailChar, h])
  · exact Or.inr (by subst h; decide)
  · exact Or.inr (by subst h; decide)

/-- A digit differs from any non-digit character. -/
theorem digitChar_ne_of (c a : Char) (h : c.isDigit = true)
    (ha : a.isDigit = false) : c ≠ a := by
  intro he; subst he; rw [h] at ha; cases ha

/-- Digits need no host escaping. -/
theorem digitChar_no_escape (c : Char) (h : c.isDigit = true) :
    shouldEscapeHost c = false := by
  simp [shouldEscapeHost, isUnreservedChar, h]

/-- Digits are not control characters. -/
theorem digitChar_not_ctl (c : Char) (h : c.isDigit = true) :
    isCTLChar c = false := by
  simp [Char.isDigit] at h
  have h1 : (48 : UInt32).toNat ≤ c.val.toNat := h.1
  have h2 : c.val.toNat ≤ (57 : UInt32).toNat := h.2
  simp [UInt32.size] at h1 h2
  simp [isCTLChar, Char.toNat]
  omega

/-- Hostname characters are not control characters. -/
theorem hostnameChar_not_ctl (c : Char) (h : isHostnameChar c = true) :
    isCTLChar c = false := by
  simp only [isHostnameChar, Bool.or_eq_true, decide_eq_true_eq] at h
  rcases h with ((h | h) | h) | h
  · simp [Char.isAlpha, Char.isUpper, Char.isLower] at h
    rcases h with ⟨ha, hb⟩ | ⟨ha, hb⟩
    · have h1 : (65 : UInt32).toNat ≤ c.val.toNat := ha
      have h2 : c.val.toNat ≤ (90 : UInt32).toNat := hb
      simp [UInt32.size] at h1 h2
      simp [isCTLChar, Char.toNat]
      omega
    · have h1 : (97 : UInt32).toNat ≤ c.val.toNat := ha
      have h2 : c.val.toNat ≤ (122 : UInt32).toNat := hb
      simp [UInt32.size] at h1 h2
      simp [isCTLChar, Char.toNat]
      omega
  · exact digitChar_not_ctl c h
  · subst h; decide
  · subst h; decide

/-- `host ++ ":" ++ port` never holds a control character. -/
theorem hostPortTail_not_ctl (h p : Chars)
    (hh : ∀ c ∈ h, isHostnameChar c = true)
    (hp : ∀ c ∈ p, c.isDigit = true) :
    ∀ c ∈ h ++ ':' :: p, isCTLChar c = false := by
  intro c hc
  rcases List.mem_append.mp hc with hc | hc
  · exact hostnameChar_not_ctl c (hh c hc)
  · rcases List.mem_cons.mp hc with rfl | hc
    · decide
    · exact digitChar_not_ctl c (hp c hc)

/-- Prepends one non-control character to a no-control-characters fact,
giving the negated `stringContainsCTLByte` form on the larger list. -/
theorem no_ctl_cons (c0 : Char) (l : Chars) (h0 : isCTLChar c0 = false)
    (hl : ∀ c ∈ l, isCTLChar c = false) :
    ∀ c ∈ c0 :: l, isCTLChar c = false := by
  intro c hc
  rcases List.mem_cons.mp hc with rfl | hc
  · exact h0
  · exact hl c hc

/-- A list without control characters passes the control-byte scan. -/
theorem stringContainsCTLByte_eq_false (s : Chars)
    (h : ∀ c ∈ s, isCTLChar c = false) :
    stringContainsCTLByte s = false := by
  simp only [stringContainsCTLByte, List.any_eq_false]
  intro c hc
  simp [h c hc]

/-- Every character of `host ++ ":" ++ port` differs from a character that is
neither a hostname character, nor the colon, nor a digit. -/
theorem hostPortTail_ne (h p : Chars) (hh : ∀ c ∈ h, isHostnameChar c = true)
    (hp : ∀ c ∈ p, c.isDigit = true) (a : Char)
    (ha1 : isHostnameChar a = false) (ha2 : a ≠ ':')
    (ha3 : a.isDigit = false) : ∀ c ∈ h ++ ':' :: p, c ≠ a := by
  intro c hc
  rcases List.mem_append.mp hc with hc | hc
  · exact hostnameChar_ne_of c a (hh c hc) ha1
  · rcases List.mem_cons.mp hc with rfl | hc
    · exact Ne.symm ha2
    · exact digitChar_ne_of c a (hp c hc) ha3

/-- A query-free string is untouched by the query-stripping step. -/
theorem stripQuery_of_no_query (rest0 : Chars) (h : ∀ c ∈ rest0, c ≠ '?') :
    stripQuery rest0 = rest0 := by
  unfold stripQuery
  rw [if_neg fun hc => getLast?_ne_of_forall rest0 '?' h hc.1,
    cutFirst_of_not_mem _ _ h]

/-- Prepends one excluded character to an everywhere-distinct list fact. -/
theorem forall_mem_cons_of (c0 : Char) (l : Chars) (a : Char) (h0 : c0 ≠ a)
    (hl : ∀ c ∈ l, c ≠ a) : ∀ c ∈ c0 :: l, c ≠ a := by
  intro c hc
  rcases List.mem_cons.mp hc with rfl | hc
  · exact h0
  · exact hl c hc

/-- `goUnescape` in host mode keeps a `host:port` string intact. -/
theorem hostPort_unescape (h p : Chars)
    (hh : ∀ c ∈ h, isHostnameChar c = true)
    (hp : ∀ c ∈ p, c.isDigit = true) :
    goUnescape .host (h ++ ':' :: p) = .ok (h ++ ':' :: p) := by
  apply goUnescape_ok
  intro c hc
  rcases List.mem_append.mp hc with hc | hc
  · exact ⟨hostnameChar_ne_of c '%' (hh c hc) (by decide),
      Or.inl (hostnameChar_no_escape c (hh c hc))⟩
  · rcases List.mem_cons.mp hc with rfl | hc
    · exact ⟨by decide, Or.inl (by decide)⟩
    · exact ⟨digitChar_ne_of c '%' (hp c hc) (by decide),
        Or.inl (digitChar_no_escape c (hp c hc))⟩

/-- `parseHost` accepts `host:port` with hostname characters and a digit
port. -/
theorem goParseHost_hostPort (h p : Chars) (hne : h ≠ [])
    (hh : ∀ c ∈ h, isHostnameChar c = true)
    (hp : ∀ c ∈ p, c.isDigit = true) :
    goParseHost (h ++ ':' :: p) = .ok (h ++ ':' :: p) := by
  rcases h with _ | ⟨c0, h0⟩
  · exact absurd rfl hne
  · have hc0 := hh c0 (List.mem_cons_self c0 h0)
    have hbr : listStartsWith (c0 :: h0 ++ ':' :: p) ['['] = false := by
      simp [listStartsWith, hostnameChar_ne_of c0 '[' hc0 (by decide)]
    have hcol : cutLast ':' (c0 :: h0 ++ ':' :: p) = some (c0 :: h0, p) :=
      cutLast_append_sep ':' (c0 :: h0) p
        fun c hc => digitChar_ne_of c ':' (hp c hc) (by decide)
    have hport : validOptionalPort (':' :: p) = true := by
      simp only [validOptionalPort, List.all_eq_true]
      exact hp
    have hun := hostPort_unescape (c0 :: h0) p hh hp
    simp only [List.cons_append] at hbr hcol hun
    simp [goParseHost, hbr, hcol, hport, hun]

/-- `parseAuthority` accepts `host:port` with hostname characters and a digit
port. -/
theorem goParseAuthority_hostPort (h p : Chars) (hne : h ≠ [])
    (hh : ∀ c ∈ h, isHostnameChar c = true)
    (hp : ∀ c ∈ p, c.isDigit = true) :
    goParseAuthority (h ++ ':' :: p) = .ok (h ++ ':' :: p) := by
  have hat : cutLast '@' (h ++ ':' :: p) = none :=
    cutLast_of_not_mem '@' _
      (hostPortTail_ne h p hh hp '@' (by decide) (by decide) (by decide))
  simp [goParseAuthority, hat, goParseHost_hostPort h p hne hh hp]

/-- `ParsePoolServiceEndpoint` maps `tcp://host:port` to
`("tcp", "host:port")` for DNS-style hosts and digit ports. -/
theorem endpoint_tcp_ok (h p : Chars) (hne : h ≠ [])
    (hh : ∀ c ∈ h, isHostnameChar c = true)
    (hpne : p ≠ []) (hp : ∀ c ∈ p, c.isDigit = true) :
    ParsePoolServiceEndpoint ("tcp://".toList ++ (h ++ ':' :: p))
      = .ok ("tcp".toList, h ++ ':' :: p) := by
  have htl : "tcp://".toList = ['t', 'c', 'p', ':', '/', '/'] := rfl
  have hn1 : ∀ c ∈ h ++ ':' :: p, c ≠ '#' :=
    hostPortTail_ne h p hh hp '#' (by decide) (by decide) (by decide)
  have hn2 : ∀ c ∈ h ++ ':' :: p, c ≠ '?' :=
    hostPortTail_ne h p hh hp '?' (by decide) (by decide) (by decide)
  have hn3 : ∀ c ∈ h ++ ':' :: p, c ≠ '/' :=
    hostPortTail_ne h p hh hp '/' (by decide) (by decide) (by decide)
  have hcf : cutFirst '#' ("tcp://".toList ++ (h ++ ':' :: p))
      = ("tcp://".toList ++ (h ++ ':' :: p), [], false) := by
    rw [htl]
    exact cutFirst_of_not_mem _ _
      (forall_mem_cons_of _ _ _ (by decide) (forall_mem_cons_of _ _ _
        (by decide) (forall_mem_cons_of _ _ _ (by decide)
        (forall_mem_cons_of _ _ _ (by decide) (forall_mem_cons_of _ _ _
        (by decide) (forall_mem_cons_of _ _ _ (by decide) hn1))))))
  have hgs : getScheme ("tcp://".toList ++ (h ++ ':' :: p))
      = .ok (['t', 'c', 'p'], '/' :: '/' :: (h ++ ':' :: p)) := by
    rw [htl]
    have := getScheme_of_scheme 't' ['c', 'p'] ('/' :: '/' :: (h ++ ':' :: p))
      (by decide) (by decide)
    simpa using this
  have hsq : stripQuery ('/' :: '/' :: (h ++ ':' :: p))
      = '/' :: '/' :: (h ++ ':' :: p) :=
    stripQuery_of_no_query _ (forall_mem_cons_of _ _ _ (by decide)
      (forall_mem_cons_of _ _ _ (by decide) hn2))
  have htw : List.takeWhile (fun c => !decide (c = '/')) (h ++ ':' :: p)
      = h ++ ':' :: p := by
    apply takeWhile_eq_self_of_forall
    intro c hc
    simpa using hn3 c hc
  have hdw : List.dropWhile (fun c => !decide (c = '/')) (h ++ ':' :: p)
      = [] := by
    apply dropWhile_eq_nil_of_forall
    intro c hc
    simpa using hn3 c hc
  have hpa := goParseAuthority_hostPort h p hne hh hp
  have hlow : toLowerChars ['t', 'c', 'p'] = ['t', 'c', 'p'] := by decide
  have hctl : stringContainsCTLByte
      ('t' :: 'c' :: 'p' :: ':' :: '/' :: '/' :: (h ++ ':' :: p)) = false :=
    stringContainsCTLByte_eq_false _
      (no_ctl_cons _ _ (by decide) (no_ctl_cons _ _ (by decide)
        (no_ctl_cons _ _ (by decide) (no_ctl_cons _ _ (by decide)
        (no_ctl_cons _ _ (by decide) (no_ctl_cons _ _ (by decide)
        (hostPortTail_not_ctl h p hh hp)))))))
  have hurl : goURLParse ("tcp://".toList ++ (h ++ ':' :: p))
      = .ok ⟨['t', 'c', 'p'], [], h ++ ':' :: p, []⟩ := by
    simp only [goURLParse, hcf, goParseInner, hgs]
    simp +decide [hlow, hsq, htw, hdw, hpa, hctl, listStartsWith, goUnescape]
  rw [htl] at hurl
  simp only [List.cons_append, List.nil_append] at hurl
  simp +decide [ParsePoolServiceEndpoint, hurl]

/-- `ParsePoolServiceEndpoint` maps `unix://P` to `("unix", P)` for a clean
rooted socket path `P` free of `% ? #` and of control characters. -/
theorem endpoint_unix_ok (p : Chars) (hclean : isCleanRootedPath p = true)
    (hsafe : ∀ c ∈ p, c ≠ '%' ∧ c ≠ '?' ∧ c ≠ '#' ∧ isCTLChar c = false) :
    ParsePoolServiceEndpoint ("unix://".toList ++ p)
      = .ok ("unix".toList, p) := by
  have htl : "unix://".toList = ['u', 'n', 'i', 'x', ':', '/', '/'] := rfl
  have hn1 : ∀ c ∈ p, c ≠ '#' := fun c hc => (hsafe c hc).2.2.1
  have hn2 : ∀ c ∈ p, c ≠ '?' := fun c hc => (hsafe c hc).2.1
  have hn3 : ∀ c ∈ p, c ≠ '%' := fun c hc => (hsafe c hc).1
  have hn4 : ∀ c ∈ p, isCTLChar c = false := fun c hc => (hsafe c hc).2.2.2
  obtain ⟨q, rfl⟩ : ∃ q, p = '/' :: q := by
    rcases p with _ | ⟨c0, q⟩
    · simp [isCleanRootedPath] at hclean
    · simp only [isCleanRootedPath, Bool.and_eq_true, decide_eq_true_eq]
        at hclean
      exact ⟨q, by rw [hclean.1]⟩
  have hcf : cutFirst '#' ("unix://".toList ++ ('/' :: q))
      = ("unix://".toList ++ ('/' :: q), [], false) := by
    rw [htl]
    exact cutFirst_of_not_mem _ _
      (forall_mem_cons_of _ _ _ (by decide) (forall_mem_cons_of _ _ _
        (by decide) (forall_mem_cons_of _ _ _ (by decide)
        (forall_mem_cons_of _ _ _ (by decide) (forall_mem_cons_of _ _ _
        (by decide) (forall_mem_cons_of _ _ _ (by decide)
        (forall_mem_cons_of _ _ _ (by decide) hn1)))))))
  have hgs : getScheme ("unix://".toList ++ ('/' :: q))
      = .ok (['u', 'n', 'i', 'x'], '/' :: '/' :: '/' :: q) := by
    rw [htl]
    have := getScheme_of_scheme 'u' ['n', 'i', 'x'] ('/' :: '/' :: '/' :: q)
      (by decide) (by decide)
    simpa using this
  have hsq : stripQuery ('/' :: '/' :: '/' :: q) = '/' :: '/' :: '/' :: q :=
    stripQuery_of_no_query _ (forall_mem_cons_of _ _ _ (by decide)
      (forall_mem_cons_of _ _ _ (by decide) hn2))
  have hun : goUnescape EncodeMode.path ('/' :: q) = .ok ('/' :: q) :=
    goUnescape_ok _ _ fun c hc => ⟨hn3 c hc, Or.inr (by decide)⟩
  have hlow : toLowerChars ['u', 'n', 'i', 'x'] = ['u', 'n', 'i', 'x'] := by
    decide
  have hctl : stringContainsCTLByte
      ('u' :: 'n' :: 'i' :: 'x' :: ':' :: '/' :: '/' :: '/' :: q) = false :=
    stringContainsCTLByte_eq_false _
      (no_ctl_cons _ _ (by decide) (no_ctl_cons _ _ (by decide)
        (no_ctl_cons _ _ (by decide) (no_ctl_cons _ _ (by decide)
        (no_ctl_cons _ _ (by decide) (no_ctl_cons _ _ (by decide)
        (no_ctl_cons _ _ (by decide) hn4)))))))
  have hurl : goURLParse ("unix://".toList ++ ('/' :: q))
      = .ok ⟨['u', 'n', 'i', 'x'], [], [], '/' :: q⟩ := by
    simp only [goURLParse, hcf, goParseInner, hgs]
    simp +decide [hlow, hsq, hun, hctl, listStartsWith, goUnescape,
      goParseAuthority, cutLast, goParseHost]
  rw [htl] at hurl
  simp only [List.cons_append, List.nil_append] at hurl
  have hjoin := goPathJoinRoot_clean ('/' :: q) hclean
  simp +decide [ParsePoolServiceEndpoint, hurl, hjoin]

/-- A bare `host:port` is rejected by `ParsePoolServiceEndpoint`: a
letter-initial lowercase hostname is taken for a URL scheme (unsupported
protocol), and otherwise URL parsing itself fails on the colon in the first
path segment. -/
theorem endpoint_bare_err (h p : Chars) (hne : h ≠ [])
    (hh : ∀ c ∈ h, isHostnameChar c = true)
    (hpne : p ≠ []) (hp : ∀ c ∈ p, c.isDigit = true)
    (hlower : toLowerChars h = h)
    (htcp : h ≠ "tcp".toList) (hunix : h ≠ "unix".toList) :
    ∃ e, ParsePoolServiceEndpoint (h ++ ':' :: p) = .error e := by
  have hcf : cutFirst '#' (h ++ ':' :: p) = (h ++ ':' :: p, [], false) :=
    cutFirst_of_not_mem _ _
      (hostPortTail_ne h p hh hp '#' (by decide) (by decide) (by decide))
  have hctl : stringContainsCTLByte (h ++ ':' :: p) = false :=
    stringContainsCTLByte_eq_false _ (hostPortTail_not_ctl h p hh hp)
  rcases h with _ | ⟨c0, h0⟩
  · exact absurd rfl hne
  · have hc0 := hh c0 (List.mem_cons_self c0 h0)
    by_cases hal : c0.isAlpha = true
    · -- the hostname is read as a scheme, leaving an unsupported protocol
      rcases p with _ | ⟨d, p'⟩
      · exact absurd rfl hpne
      · have hgs : getScheme ((c0 :: h0) ++ ':' :: (d :: p'))
            = .ok (c0 :: h0, d :: p') :=
          getScheme_of_scheme c0 h0 (d :: p') hal
            fun c hc => hostnameChar_scheme c
              (hh c (List.mem_cons_of_mem c0 hc))
        have hsq : stripQuery (d :: p') = d :: p' :=
          stripQuery_of_no_query _
            fun c hc => digitChar_ne_of c '?' (hp c hc) (by decide)
        have hsw : listStartsWith (d :: p') ['/'] = false := by
          simp [listStartsWith,
            digitChar_ne_of d '/' (hp d (List.mem_cons_self d p')) (by decide)]
        have hurl : goURLParse ((c0 :: h0) ++ ':' :: (d :: p'))
            = .ok ⟨c0 :: h0, d :: p', [], []⟩ := by
          simp only [goURLParse, hcf, goParseInner, hgs]
          simp only [List.cons_append] at hctl
          simp +decide [hsq, hsw, hlower, hctl]
        refine ⟨EndpointErr.unsupportedProtocol, ?_⟩
        have htcp' : ¬(c0 = 't' ∧ h0 = ['c', 'p']) := by
          rintro ⟨rfl, rfl⟩
          exact htcp rfl
        have hunix' : ¬(c0 = 'u' ∧ h0 = ['n', 'i', 'x']) := by
          rintro ⟨rfl, rfl⟩
          exact hunix rfl
        simp only [List.cons_append] at hurl
        simp +decide [ParsePoolServiceEndpoint, hurl, hlower, htcp', hunix']
    · -- no scheme; the colon in the first path segment is a parse error
      have hal' : c0.isAlpha = false := by simpa using hal
      have hgs : getScheme (c0 :: (h0 ++ ':' :: p))
          = .ok ([], c0 :: (h0 ++ ':' :: p)) :=
        getScheme_no_scheme c0 _ hal'
          (hostnameChar_ne_of c0 ':' hc0 (by decide))
      have hsq : stripQuery ((c0 :: h0) ++ ':' :: p) = (c0 :: h0) ++ ':' :: p :=
        stripQuery_of_no_query _
          (hostPortTail_ne (c0 :: h0) p hh hp '?' (by decide) (by decide)
            (by decide))
      have hsw : listStartsWith ((c0 :: h0) ++ ':' :: p) ['/'] = false := by
        simp [listStartsWith, hostnameChar_ne_of c0 '/' hc0 (by decide)]
      have hslash : cutFirst '/' ((c0 :: h0) ++ ':' :: p)
          = ((c0 :: h0) ++ ':' :: p, [], false) :=
        cutFirst_of_not_mem _ _
          (hostPortTail_ne (c0 :: h0) p hh hp '/' (by decide) (by decide)
            (by decide))
      have hcol : ((c0 :: h0) ++ ':' :: p).contains ':' = true :=
        List.elem_iff.mpr
          (List.mem_append.mpr (Or.inr (List.mem_cons_self ':' p)))
      refine ⟨EndpointErr.parseFailed, ?_⟩
      have hurl : goURLParse ((c0 :: h0) ++ ':' :: p) = .error () := by
        simp only [goURLParse, hcf, goParseInner]
        simp only [List.cons_append] at hgs hsq hsw hslash hcol hctl ⊢
        simp +decide [hgs, hsq, hsw, hslash, hcol, hctl]
      simp only [List.cons_append] at hurl
      simp [ParsePoolServiceEndpoint, hurl]

/-- A scheme-relative `//host:port` is accepted by `ParsePoolServiceEndpoint`
as a tcp address. -/
theorem endpoint_schemeless_ok (h p : Chars) (hne : h ≠ [])
    (hh : ∀ c ∈ h, isHostnameChar c = true)
    (hpne : p ≠ []) (hp : ∀ c ∈ p, c.isDigit = true) :
    ParsePoolServiceEndpoint ('/' :: '/' :: (h ++ ':' :: p))
      = .ok ("tcp".toList, h ++ ':' :: p) := by
  have hn1 : ∀ c ∈ h ++ ':' :: p, c ≠ '#' :=
    hostPortTail_ne h p hh hp '#' (by decide) (by decide) (by decide)
  have hn2 : ∀ c ∈ h ++ ':' :: p, c ≠ '?' :=
    hostPortTail_ne h p hh hp '?' (by decide) (by decide) (by decide)
  have hn3 : ∀ c ∈ h ++ ':' :: p, c ≠ '/' :=
    hostPortTail_ne h p hh hp '/' (by decide) (by decide) (by decide)
  have hcf : cutFirst '#' ('/' :: '/' :: (h ++ ':' :: p))
      = ('/' :: '/' :: (h ++ ':' :: p), [], false) :=
    cutFirst_of_not_mem _ _ (forall_mem_cons_of _ _ _ (by decide)
      (forall_mem_cons_of _ _ _ (by decide) hn1))
  have hgs : getScheme ('/' :: '/' :: (h ++ ':' :: p))
      = .ok ([], '/' :: '/' :: (h ++ ':' :: p)) :=
    getScheme_no_scheme '/' _ (by decide) (by decide)
  have hsq : stripQuery ('/' :: '/' :: (h ++ ':' :: p))
      = '/' :: '/' :: (h ++ ':' :: p) :=
    stripQuery_of_no_query _ (forall_mem_cons_of _ _ _ (by decide)
      (forall_mem_cons_of _ _ _ (by decide) hn2))
  have htw : List.takeWhile (fun c => !decide (c = '/')) (h ++ ':' :: p)
      = h ++ ':' :: p := by
    apply takeWhile_eq_self_of_forall
    intro c hc
    simpa using hn3 c hc
  have hdw : List.dropWhile (fun c => !decide (c = '/')) (h ++ ':' :: p)
      = [] := by
    apply dropWhile_eq_nil_of_forall
    intro c hc
    simpa using hn3 c hc
  have hpa := goParseAuthority_hostPort h p hne hh hp
  rcases h with _ | ⟨c0, h0⟩
  · exact absurd rfl hne
  · have hc0 := hh c0 (List.mem_cons_self c0 h0)
    have hsw3 : listStartsWith ('/' :: '/' :: ((c0 :: h0) ++ ':' :: p))
        ['/', '/', '/'] = false := by
      simp [listStartsWith, hostnameChar_ne_of c0 '/' hc0 (by decide)]
    have hctl : stringContainsCTLByte
        ('/' :: '/' :: ((c0 :: h0) ++ ':' :: p)) = false :=
      stringContainsCTLByte_eq_false _
        (no_ctl_cons _ _ (by decide) (no_ctl_cons _ _ (by decide)
          (hostPortTail_not_ctl (c0 :: h0) p hh hp)))
    have hurl : goURLParse ('/' :: '/' :: ((c0 :: h0) ++ ':' :: p))
        = .ok ⟨[], [], (c0 :: h0) ++ ':' :: p, []⟩ := by
      simp only [goURLParse, hcf, goParseInner, hgs]
      simp only [List.cons_append] at hsq htw hdw hpa hsw3 hctl ⊢
      simp +decide [hsq, htw, hdw, hpa, hsw3, hctl, listStartsWith,
        goUnescape]
    simp only [List.cons_append] at hurl ⊢
    simp +decide [ParsePoolServiceEndpoint, hurl]

/-- C9 counterexample: the bare `host:port` endpoint `localhost:1247` is
rejected as an unsupported protocol (Go's `url.Parse` reads `localhost` as
the scheme), while the claim requires it to map to
`("tcp", "localhost:1247")`. -/
theorem C9_endpoint_counterexample :
    ParsePoolServiceEndpoint ("localhost:1247".toList)
      = .error EndpointErr.unsupportedProtocol ∧
    ParsePoolServiceEndpoint ("localhost:1247".toList)
      ≠ .ok ("tcp".toList, "localhost:1247".toList) := by
  constructor
  · rfl
  · intro hcon
    rw [show ParsePoolServiceEndpoint ("localhost:1247".toList)
      = .error EndpointErr.unsupportedProtocol from rfl] at hcon
    exact Except.noConfusion hcon

/-- C9 (amended): the pool-endpoint parser maps `tcp://host:port` to
`("tcp", "host:port")` and `unix://P` (a clean rooted path `P`) to
`("unix", P)`; a bare `host:port` is NOT accepted — for a lowercase
letter-initial hostname other than tcp/unix it is an unsupported-protocol
error, and for a hostname starting with a non-letter the URL parse itself
fails; the scheme-relative form `//host:port` is what maps to
`("tcp", "host:port")`. Hostnames range over non-empty strings of letters,
digits, hyphens and dots, ports over non-empty digit strings, socket paths
over clean rooted paths free of `% ? #` and of control characters (which
`url.Parse` rejects outright). -/
theorem C9_endpoint_parse_cases :
    (∀ h p, h ≠ [] → (∀ c ∈ h, isHostnameChar c = true) → p ≠ [] →
      (∀ c ∈ p, c.isDigit = true) →
      ParsePoolServiceEndpoint ("tcp://".toList ++ (h ++ ':' :: p))
        = .ok ("tcp".toList, h ++ ':' :: p)) ∧
    (∀ q, isCleanRootedPath q = true →
      (∀ c ∈ q, c ≠ '%' ∧ c ≠ '?' ∧ c ≠ '#' ∧ isCTLChar c = false) →
      ParsePoolServiceEndpoint ("unix://".toList ++ q)
        = .ok ("unix".toList, q)) ∧
    (∀ h p, h ≠ [] → (∀ c ∈ h, isHostnameChar c = true) → p ≠ [] →
      (∀ c ∈ p, c.isDigit = true) → toLowerChars h = h → h ≠ "tcp".toList →
      h ≠ "unix".toList →
      ∃ e, ParsePoolServiceEndpoint (h ++ ':' :: p) = .error e) ∧
    (∀ h p, h ≠ [] → (∀ c ∈ h, isHostnameChar c = true) → p ≠ [] →
      (∀ c ∈ p, c.isDigit = true) →
      ParsePoolServiceEndpoint ('/' :: '/' :: (h ++ ':' :: p))
        = .ok ("tcp".toList, h ++ ':' :: p)) :=
  ⟨endpoint_tcp_ok, endpoint_unix_ok, endpoint_bare_err,
    endpoint_schemeless_ok⟩

/-- C9 witness: the amended statement evaluated at
`tcp://example.com:1247`, `unix:///var/run/irods.sock`, `localhost:1247` and
`//example.com:1247`. -/
theorem C9_endpoint_parse_cases_witness :
    ParsePoolServiceEndpoint ("tcp://example.com:1247".toList)
      = .ok ("tcp".toList, "example.com:1247".toList) ∧
    ParsePoolServiceEndpoint ("unix:///var/run/irods.sock".toList)
      = .ok ("unix".toList, "/var/run/irods.sock".toList) ∧
    (∃ e, ParsePoolServiceEndpoint ("localhost:1247".toList) = .error e) ∧
    ParsePoolServiceEndpoint ("//example.com:1247".toList)
      = .ok ("tcp".toList, "example.com:1247".toList) := by
  refine ⟨?_, ?_, ?_, ?_⟩
  · have h1 := C9_endpoint_parse_cases.1 "example.com".toList "1247".toList
      (by decide) (by decide) (by decide) (by decide)
    have e1 : "tcp://".toList ++ ("example.com".toList ++ ':' :: "1247".toList)
        = "tcp://example.com:1247".toList := rfl
    have e2 : "example.com".toList ++ ':' :: "1247".toList
        = "example.com:1247".toList := rfl
    rw [e1, e2] at h1
    exact h1
  · have h2 := C9_endpoint_parse_cases.2.1 "/var/run/irods.sock".toList
      (by decide) (by decide)
    have e1 : "unix://".toList ++ "/var/run/irods.sock".toList
        = "unix:///var/run/irods.sock".toList := rfl
    rw [e1] at h2
    exact h2
  · have h3 := C9_endpoint_parse_cases.2.2.1 "localhost".toList "1247".toList
      (by decide) (by decide) (by decide) (by decide) (by decide) (by decide)
      (by decide)
    have e1 : "localhost".toList ++ ':' :: "1247".toList
        = "localhost:1247".toList := rfl
    simp only [e1] at h3
    exact h3
  · have h4 := C9_endpoint_parse_cases.2.2.2 "example.com".toList "1247".toList
      (by decide) (by decide) (by decide) (by decide)
    have e1 : '/' :: '/' :: ("example.com".toList ++ ':' :: "1247".toList)
        = "//example.com:1247".toList := rfl
    have e2 : "example.com".toList ++ ':' :: "1247".toList
        = "example.com:1247".toList := rfl
    rw [e1, e2] at h4
    exact h4

end IrodsFS
